import Mathlib

/-!
# SVF: predicate tables, abstract trace, location lookup, constant data, call
instructions, program assignment graph

A shallow embedding of the parts of `AE/Svfexe/AbstractInterpretation.h`,
`SVFIR/SVFValue.h` and `SVFIR/SVFIR.cpp` that the properties below are about, followed by
theorems about them.

* `Map` is the association-list reading of the `Map<K, V>` (unordered map) used by the
  C++ code: `count`, `find`, and the inserting `operator[]`.
* `Predicate` lists the comparison-predicate codes; `_reverse_predicate` and
  `_switch_lhsrhs_predicate` are the two tables of the header, row for row.
* `Str` holds the pieces of `std::string` that `checkLineNumber` and `checkFileName` use;
  strings are lists of characters and a thrown exception is an `Except.error`.
* `getAbsStateFromTrace` and `hasAbsStateFromTrace` are written over the representative
  function of the ICFG and the trace, and return the trace afterwards.
* The branch-feasibility checks are declared in the header and defined elsewhere; they and
  the interval domain are modelled from the specification, over the two tables of the header.
* `SVFIR` holds the data members of the program assignment graph that `SVFIR/SVFIR.cpp`
  reads and writes; statement objects live at addresses, so that a statement changed in
  place is changed for every holder.  What the file calls outside the sources is gathered in
  `Externals`; a failed assertion is an `Except.error` with its message.
* The flag `constDataOrAggData` of a value is set by the constructor of `SVFValue` from
  the kind; `SVFCallInst` keeps its arguments in a list, and `arg_size()` is a `u32_t`.
* The thirteen statement adders of `SVFIR.cpp` share one shape: node lookups, a presence
  query on the key of the statement, and the branch that allocates and records it.
-/

namespace SVF

/-! ## Maps -/

/-- The `Map<K, V>` of the sources, read as the list of its entries.  A key occurs in at
most one entry of a map built by the operations below; lookups return the first match. -/
abbrev Map (K V : Type) := List (K × V)

namespace Map

variable {K V : Type} [DecidableEq K]

/-- Lookup of a key: `m.find(k)`, `none` standing for `m.end()`. -/
def find : Map K V → K → Option V
  | [], _ => none
  | (k, v) :: rest, key => if k = key then some v else find rest key

/-- Number of entries under a key: `m.count(k)`, which is 0 or 1 on a map. -/
def count (m : Map K V) (key : K) : Nat :=
  match find m key with
  | none => 0
  | some _ => 1

/-- The keys of the map, in entry order. -/
def keys (m : Map K V) : List K := m.map Prod.fst

/-- The subscript `m[k]`: the value stored under `k`; when there is none, a
value-initialised entry is inserted first.  Returns the value and the map afterwards. -/
def subscript (dflt : V) (m : Map K V) (key : K) : V × Map K V :=
  match find m key with
  | some v => (v, m)
  | none => (dflt, m ++ [(key, dflt)])

end Map

/-! ## Comparison predicates -/

/-- Modelled from the spec: the comparison-predicate codes `CmpStmt::Predicate` ("the
relational operator code of a comparison statement"), whose enum declaration is in a header
that is not among the sources.  The enumerators are the ones the two tables name, together
with the remaining float codes of the same enum; distinct enumerators are distinct codes. -/
inductive Predicate where
  | FCMP_FALSE | FCMP_OEQ | FCMP_OGT | FCMP_OGE | FCMP_OLT | FCMP_OLE | FCMP_ONE | FCMP_ORD
  | FCMP_UNO | FCMP_UEQ | FCMP_UGT | FCMP_UGE | FCMP_ULT | FCMP_ULE | FCMP_UNE | FCMP_TRUE
  | ICMP_EQ | ICMP_NE | ICMP_UGT | ICMP_UGE | ICMP_ULT | ICMP_ULE
  | ICMP_SGT | ICMP_SGE | ICMP_SLT | ICMP_SLE
  deriving DecidableEq, Repr

namespace Predicate

/-- The ten integer comparison predicates. -/
def isIntPredicate : Predicate → Bool
  | ICMP_EQ | ICMP_NE | ICMP_UGT | ICMP_UGE | ICMP_ULT | ICMP_ULE
  | ICMP_SGT | ICMP_SGE | ICMP_SLT | ICMP_SLE => true
  | _ => false

end Predicate

namespace AbstractInterpretation

open Predicate

/-- The table `_reverse_predicate` of the header, row for row. -/
def _reverse_predicate : Map Predicate Predicate :=
  [ (FCMP_OEQ, FCMP_ONE),   -- == -> !=
    (FCMP_UEQ, FCMP_UNE),   -- == -> !=
    (FCMP_OGT, FCMP_OLE),   -- > -> <=
    (FCMP_OGE, FCMP_OLT),   -- >= -> <
    (FCMP_OLT, FCMP_OGE),   -- < -> >=
    (FCMP_OLE, FCMP_OGT),   -- <= -> >
    (FCMP_ONE, FCMP_OEQ),   -- != -> ==
    (FCMP_UNE, FCMP_UEQ),   -- != -> ==
    (ICMP_EQ, ICMP_NE),     -- == -> !=
    (ICMP_NE, ICMP_EQ),     -- != -> ==
    (ICMP_UGT, ICMP_ULE),   -- > -> <=
    (ICMP_ULT, ICMP_UGE),   -- < -> >=
    (ICMP_UGE, ICMP_ULT),   -- >= -> <
    (ICMP_SGT, ICMP_SLE),   -- > -> <=
    (ICMP_SLT, ICMP_SGE),   -- < -> >=
    (ICMP_SGE, ICMP_SLT) ]  -- >= -> <

/-- The table `_switch_lhsrhs_predicate` of the header, row for row. -/
def _switch_lhsrhs_predicate : Map Predicate Predicate :=
  [ (FCMP_OEQ, FCMP_OEQ),   -- == -> ==
    (FCMP_UEQ, FCMP_UEQ),   -- == -> ==
    (FCMP_OGT, FCMP_OLT),   -- > -> <
    (FCMP_OGE, FCMP_OLE),   -- >= -> <=
    (FCMP_OLT, FCMP_OGT),   -- < -> >
    (FCMP_OLE, FCMP_OGE),   -- <= -> >=
    (FCMP_ONE, FCMP_ONE),   -- != -> !=
    (FCMP_UNE, FCMP_UNE),   -- != -> !=
    (ICMP_EQ, ICMP_EQ),     -- == -> ==
    (ICMP_NE, ICMP_NE),     -- != -> !=
    (ICMP_UGT, ICMP_ULT),   -- > -> <
    (ICMP_ULT, ICMP_UGT),   -- < -> >
    (ICMP_UGE, ICMP_ULE),   -- >= -> <=
    (ICMP_SGT, ICMP_SLT),   -- > -> <
    (ICMP_SLT, ICMP_SGT),   -- < -> >
    (ICMP_SGE, ICMP_SLE) ]  -- >= -> <=

/-- Looking a predicate up in the reverse-predicate table. -/
def reverse (p : Predicate) : Option Predicate := Map.find _reverse_predicate p

/-- Looking a predicate up in the swap-predicate table. -/
def swap (p : Predicate) : Option Predicate := Map.find _switch_lhsrhs_predicate p

end AbstractInterpretation

/-! ## Meaning of the integer predicates -/

/-- The unsigned reading of an integer at bit width `w`. -/
def toUnsigned (w : Nat) (a : Int) : Int := a % 2 ^ w

/-- The signed (two's complement) reading of an integer at bit width `w`. -/
def toSigned (w : Nat) (a : Int) : Int :=
  if 2 * (a % 2 ^ w) < 2 ^ w then a % 2 ^ w else a % 2 ^ w - 2 ^ w

/-- Whether an integer predicate holds of two operands of bit width `w`: signed predicates
compare the signed readings, unsigned predicates the unsigned readings.  Float predicates
have no integer meaning (`none`). -/
def evalICmp (w : Nat) (p : Predicate) (a b : Int) : Option Bool :=
  match p with
  | .ICMP_EQ => some (decide (toUnsigned w a = toUnsigned w b))
  | .ICMP_NE => some (decide (toUnsigned w a ≠ toUnsigned w b))
  | .ICMP_UGT => some (decide (toUnsigned w a > toUnsigned w b))
  | .ICMP_UGE => some (decide (toUnsigned w a ≥ toUnsigned w b))
  | .ICMP_ULT => some (decide (toUnsigned w a < toUnsigned w b))
  | .ICMP_ULE => some (decide (toUnsigned w a ≤ toUnsigned w b))
  | .ICMP_SGT => some (decide (toSigned w a > toSigned w b))
  | .ICMP_SGE => some (decide (toSigned w a ≥ toSigned w b))
  | .ICMP_SLT => some (decide (toSigned w a < toSigned w b))
  | .ICMP_SLE => some (decide (toSigned w a ≤ toSigned w b))
  | _ => none

/-! ## Values and their source location (`SVFIR/SVFValue.h`) -/

/-- The enum `SVFValue::SVFValKind`. -/
inductive SVFValKind where
  | SVFVal | SVFFunc | SVFBB | SVFInst | SVFCall | SVFVCall | SVFGlob | SVFArg | SVFConst
  | SVFConstData | SVFConstInt | SVFConstFP | SVFNullPtr | SVFBlackHole | SVFMetaAsValue
  | SVFOther
  deriving DecidableEq, Repr

/-- The data members of `SVFValue`; strings are lists of characters and the type pointer is
an identifier. -/
structure SVFValue where
  kind : SVFValKind
  ptrInUncalledFun : Bool
  constDataOrAggData : Bool
  type : Nat
  name : List Char
  sourceLoc : List Char
  valKind : SVFValKind
  deriving DecidableEq, Repr

namespace SVFValue

/-- The constructor `SVFValue(const SVFType* ty, SVFValKind k)`. -/
def new (ty : Nat) (k : SVFValKind) : SVFValue :=
  { kind := k
    ptrInUncalledFun := false
    constDataOrAggData := decide (SVFValKind.SVFConstData = k)
    type := ty
    name := []
    sourceLoc := ['N', 'o', 'L', 'o', 'c']
    valKind := k }

/-- The getter `getSourceLoc()`. -/
def getSourceLoc (v : SVFValue) : List Char := v.sourceLoc

end SVFValue

/-! ## The pieces of `std::string` the location checks use -/

/-- The exceptions the string library can throw here. -/
inductive Fault where
  | out_of_range
  | invalid_argument
  deriving DecidableEq, Repr

deriving instance DecidableEq for Except

namespace Str

/-- The search `str.find(needle)`: the first position at which `needle` occurs in `str`, or
`none` for `npos`. -/
def find : List Char → List Char → Option Nat
  | [], needle => if needle = [] then some 0 else none
  | c :: cs, needle =>
    if needle.isPrefixOf (c :: cs) then some 0 else (find cs needle).map (· + 1)

/-- The loop `while (pos < str.length() && p(str[pos])) pos++`, run on the characters
from `pos` on, returning the final `pos`. -/
def advanceLoop (p : Char → Bool) : List Char → Nat → Nat
  | [], pos => pos
  | c :: rest, pos => if p c then advanceLoop p rest (pos + 1) else pos

/-- The loop `while (pos < str.length() && p(str[pos])) pos++` started at `pos`. -/
def advanceWhile (p : Char → Bool) (str : List Char) (pos : Nat) : Nat :=
  advanceLoop p (str.drop pos) pos

/-- The call `str.substr(pos, n)`, which throws `std::out_of_range` when `pos` is past the
end. -/
def substr (str : List Char) (pos n : Nat) : Except Fault (List Char) :=
  if pos > str.length then .error .out_of_range else .ok ((str.drop pos).take n)

/-- The C `isspace` on a character. -/
def isspace (c : Char) : Bool :=
  c = ' ' || c = '\t' || c = '\n' || c = '\x0b' || c = '\x0c' || c = '\r'

/-- The C `isdigit` on a character. -/
def isdigit (c : Char) : Bool := decide ('0' ≤ c) && decide (c ≤ '9')

/-- The value of a run of decimal digits. -/
def decimalValue (digits : List Char) : Nat :=
  digits.foldl (fun acc c => acc * 10 + (c.toNat - '0'.toNat)) 0

/-- The call `std::stoi(s)` in base 10 with a 32-bit `int`: leading white space is
skipped, an optional sign is read, then the longest run of digits; no digit throws
`std::invalid_argument`, a value outside the range of `int` throws `std::out_of_range`. -/
def stoi (s : List Char) : Except Fault Int :=
  let s1 := s.dropWhile isspace
  let signed : Bool × List Char :=
    match s1 with
    | '-' :: r => (true, r)
    | '+' :: r => (false, r)
    | _ => (false, s1)
  let digits := signed.2.takeWhile isdigit
  if digits = [] then .error .invalid_argument
  else
    let v : Int := if signed.1 then - (decimalValue digits : Int) else (decimalValue digits : Int)
    if v < -(2 : Int) ^ 31 ∨ v > (2 : Int) ^ 31 - 1 then .error .out_of_range else .ok v

end Str

/-! ## The abstract state and the abstract trace -/

/-- An interval bound: an integer or an infinity. -/
inductive Bound where
  | minusInfinity
  | num (n : Int)
  | plusInfinity
  deriving DecidableEq, Repr

/-- Modelled from the spec: the abstract value of a variable in the numeric abstract
domain, an interval `[lb, ub]` (the class `IntervalValue` is in a header that is not among
the sources). -/
structure IntervalValue where
  lb : Bound
  ub : Bound
  deriving DecidableEq, Repr

/-- Modelled from the spec: the abstract state, "a mapping variable-id → abstract value"
(the class `AbstractState` is in a header that is not among the sources). -/
abbrev AbstractState := Map Nat IntervalValue

/-- ICFG nodes, by identity. -/
abbrev ICFGNode := Nat

namespace AbstractInterpretation

/-- The line marker `"ln":` searched by `checkLineNumber`. -/
def lnMarker : List Char := ['"', 'l', 'n', '"', ':']

/-- The file marker `"fl":` searched by `checkFileName`. -/
def flMarker : List Char := ['"', 'f', 'l', '"', ':']

/-- The method `checkLineNumber(str, i)`. -/
def checkLineNumber (str : List Char) (i : Int) : Except Fault Bool :=
  match Str.find str lnMarker with
  | none => .ok false
  | some found =>
    let ln_pos := Str.advanceWhile (fun c => c = ' ') str (found + 5)
    let end_pos := Str.advanceWhile Str.isdigit str ln_pos
    match Str.substr str ln_pos (end_pos - ln_pos) with
    | .error e => .error e
    | .ok num_str =>
      match Str.stoi num_str with
      | .error e => .error e
      | .ok ln => .ok (decide (ln = i))

/-- The method `checkFileName(str, filename)`. -/
def checkFileName (str filename : List Char) : Except Fault Bool :=
  match Str.find str flMarker with
  | none => .ok false
  | some found =>
    let fl_pos := Str.advanceWhile (fun c => c = ' ' || c = '"') str (found + 5)
    let end_pos := Str.advanceWhile (fun c => c != '"') str fl_pos
    match Str.substr str fl_pos (end_pos - fl_pos) with
    | .error e => .error e
    | .ok file_str => .ok (decide (file_str = filename))

/-- How a call of `getAbsStateFromTrace` ends: in the failed assertion, or with the state
it returns and the trace afterwards. -/
inductive TraceResult where
  | assertionFailed (msg : String)
  | returned (state : AbstractState) (trace : Map ICFGNode AbstractState)
  deriving DecidableEq, Repr

/-- The method `getAbsStateFromTrace(node)`, over the representative function of the ICFG
and the current `abstractTrace`. -/
def getAbsStateFromTrace (getRepNode : ICFGNode → ICFGNode)
    (abstractTrace : Map ICFGNode AbstractState) (node : ICFGNode) : TraceResult :=
  let repNode := getRepNode node
  if Map.count abstractTrace repNode = 0 then
    .assertionFailed "No preAbsTrace for this node"
  else
    let r := Map.subscript [] abstractTrace repNode
    .returned r.1 r.2

/-- The method `hasAbsStateFromTrace(node)`: its answer and the trace afterwards. -/
def hasAbsStateFromTrace (getRepNode : ICFGNode → ICFGNode)
    (abstractTrace : Map ICFGNode AbstractState) (node : ICFGNode) :
    Bool × Map ICFGNode AbstractState :=
  let repNode := getRepNode node
  (decide (Map.count abstractTrace repNode ≠ 0), abstractTrace)

end AbstractInterpretation

/-! ## Branch feasibility -/

/-- The six relations that the comments beside the rows of the two tables name:
`==`, `!=`, `>`, `>=`, `<`, `<=`. -/
inductive Relation where
  | eq | ne | gt | ge | lt | le
  deriving DecidableEq, Repr

/-- Whether a relation holds of two integers. -/
def Relation.holds : Relation → Int → Int → Bool
  | .eq, a, b => decide (a = b)
  | .ne, a, b => decide (a ≠ b)
  | .gt, a, b => decide (a > b)
  | .ge, a, b => decide (a ≥ b)
  | .lt, a, b => decide (a < b)
  | .le, a, b => decide (a ≤ b)

/-- The relation of a predicate, as the comments beside the rows of the two tables read
it; the predicates that occur in no row have none. -/
def Predicate.relation : Predicate → Option Relation
  | .FCMP_OEQ | .FCMP_UEQ | .ICMP_EQ => some .eq
  | .FCMP_ONE | .FCMP_UNE | .ICMP_NE => some .ne
  | .FCMP_OGT | .ICMP_UGT | .ICMP_SGT => some .gt
  | .FCMP_OGE | .ICMP_UGE | .ICMP_SGE => some .ge
  | .FCMP_OLT | .ICMP_ULT | .ICMP_SLT => some .lt
  | .FCMP_OLE | .ICMP_ULE | .ICMP_SLE => some .le
  | _ => none

/-- Whether an integer predicate holds of two unbounded integers, the values that the
interval domain abstracts; float predicates have no meaning on integers (`none`). -/
def holdsOnIntegers (p : Predicate) (a b : Int) : Option Bool :=
  if p.isIntPredicate then p.relation.map (fun rel => rel.holds a b) else none

namespace Bound

/-- The order `≤` on bounds: minus infinity, the integers, plus infinity. -/
def le : Bound → Bound → Bool
  | minusInfinity, _ => true
  | _, plusInfinity => true
  | num a, num b => decide (a ≤ b)
  | _, _ => false

/-- The strict order `<` on bounds. -/
def lt : Bound → Bound → Bool
  | minusInfinity, minusInfinity => false
  | minusInfinity, _ => true
  | plusInfinity, _ => false
  | num _, minusInfinity => false
  | num a, num b => decide (a < b)
  | num _, plusInfinity => true

end Bound

namespace IntervalValue

/-- The interval `[c, c]` of a constant. -/
def ofConst (c : Int) : IntervalValue := ⟨.num c, .num c⟩

/-- The unconstrained interval. -/
def top : IntervalValue := ⟨.minusInfinity, .plusInfinity⟩

/-- Whether an integer lies in the interval. -/
def contains (I : IntervalValue) (v : Int) : Bool :=
  Bound.le I.lb (.num v) && Bound.le (.num v) I.ub

/-- Modelled from the spec: "the abstract domain's comparison under that predicate"
proving "always false", for a relation and the intervals of the two operands (the interval
operations are in a header that is not among the sources).  It answers true when the bounds
show that no value of the left interval stands in the relation to a value of the right. -/
def alwaysFalse (rel : Relation) (l r : IntervalValue) : Bool :=
  match rel with
  | .eq => Bound.lt l.ub r.lb || Bound.lt r.ub l.lb
  | .ne =>
    match l.lb, l.ub, r.lb, r.ub with
    | .num a, .num b, .num c, .num d => decide (a = b) && decide (c = d) && decide (a = c)
    | _, _, _, _ => false
  | .gt => Bound.le l.ub r.lb
  | .ge => Bound.lt l.ub r.lb
  | .lt => Bound.le r.ub l.lb
  | .le => Bound.lt r.ub l.lb

end IntervalValue

/-- Modelled from the spec: an operand of a comparison, a variable (by id) or a constant
(the statement classes are in a header that is not among the sources). -/
inductive Operand where
  | var (id : Nat)
  | const (c : Int)
  deriving DecidableEq, Repr

/-- Modelled from the spec: a comparison statement, its predicate and its two operands. -/
structure CmpStmt where
  predicate : Predicate
  op0 : Operand
  op1 : Operand
  deriving DecidableEq, Repr

/-- Modelled from the spec: a guarded control-flow edge: the branch of a comparison
statement with the value `succ` of the comparison (true or false), or the branch of a
switch on a variable with the case value `succ`. -/
inductive IntraCFGEdge where
  | cmpBranch (cmpStmt : CmpStmt) (succ : Bool)
  | switchBranch (var : Nat) (succ : Int)
  deriving DecidableEq, Repr

namespace AbstractInterpretation

/-- The abstract value of an operand in a state: the interval of a constant, the stored
interval of a variable, and the unconstrained interval for a variable without an entry. -/
def absValue (as : AbstractState) : Operand → IntervalValue
  | .const c => IntervalValue.ofConst c
  | .var x => (Map.find as x).getD IntervalValue.top

/-- Whether the abstract domain proves the predicate always false on two intervals; a
predicate without a relation is never proved false. -/
def provesAlwaysFalse (p : Predicate) (l r : IntervalValue) : Bool :=
  match p.relation with
  | none => false
  | some rel => IntervalValue.alwaysFalse rel l r

/-- Modelled from the spec: `isCmpBranchFeasible(cmpStmt, succ, as)`, whose body is in a
source file that is not among the sources.  A "constant OP variable" is rewritten to
"variable OP' constant" with the swap-predicate table; for the false branch the predicate
is negated with the reverse-predicate table; the branch is feasible iff the abstract
domain's comparison under the resulting predicate does not prove "always false".  The
tables are the ones of the header; a lookup that finds no row leaves no predicate to
evaluate and the result is `none`. -/
def isCmpBranchFeasible (cmpStmt : CmpStmt) (succ : Bool) (as : AbstractState) :
    Option Bool :=
  let canonical : Option (Predicate × Operand × Operand) :=
    match cmpStmt.op0, cmpStmt.op1 with
    | .const c, .var x => (swap cmpStmt.predicate).map (fun q => (q, .var x, .const c))
    | op0, op1 => some (cmpStmt.predicate, op0, op1)
  match canonical with
  | none => none
  | some (p, op0, op1) =>
    match (if succ then some p else reverse p) with
    | none => none
    | some q => some (!provesAlwaysFalse q (absValue as op0) (absValue as op1))

/-- Modelled from the spec: `isSwitchBranchFeasible(var, succ, as)`, whose body is in a
source file that is not among the sources: "the analogous check against case constants,
treating the switch variable's abstract value against equality with each case's
literal". -/
def isSwitchBranchFeasible (var : Nat) (succ : Int) (as : AbstractState) : Option Bool :=
  some (!IntervalValue.alwaysFalse .eq (absValue as (.var var)) (IntervalValue.ofConst succ))

/-- Modelled from the spec: `isBranchFeasible(intraEdge, as)`, whose body is in a source
file that is not among the sources: the check of the edge's guard. -/
def isBranchFeasible (intraEdge : IntraCFGEdge) (as : AbstractState) : Option Bool :=
  match intraEdge with
  | .cmpBranch cmpStmt succ => isCmpBranchFeasible cmpStmt succ as
  | .switchBranch var succ => isSwitchBranchFeasible var succ as

/-- The value of an operand under a concrete variable assignment. -/
def evalOperand (σ : Nat → Int) : Operand → Int
  | .const c => c
  | .var x => σ x

/-- A concrete variable assignment is consistent with an abstract state when the value of
every variable with an entry lies in the interval stored for it. -/
def consistent (σ : Nat → Int) (as : AbstractState) : Bool :=
  as.all (fun e => e.2.contains (σ e.1))

/-- A concrete variable assignment can take an edge: the comparison evaluates to the
edge's `succ`, or the switch variable equals the edge's case value. -/
def takes (σ : Nat → Int) : IntraCFGEdge → Bool
  | .cmpBranch cmpStmt succ =>
    decide (holdsOnIntegers cmpStmt.predicate (evalOperand σ cmpStmt.op0)
      (evalOperand σ cmpStmt.op1) = some succ)
  | .switchBranch var succ => decide (σ var = succ)

end AbstractInterpretation

/-! ## The program assignment graph (`SVFIR/SVFIR.cpp`) -/

/-- Node identifiers. -/
abbrev NodeID := Nat

/-- Field offsets of an access path. -/
abbrev APOffset := Int

/-- Sets of node identifiers (`NodeBS`, a sparse bit vector), read as the increasing list
of their members. -/
abbrev NodeBS := List NodeID

namespace NodeBS

/-- The call `bs.set(i)`: the member `i` is added at its place in the order, unless it is
there already. -/
def set : NodeBS → NodeID → NodeBS
  | [], i => [i]
  | a :: rest, i =>
    if i < a then i :: a :: rest
    else if i = a then a :: rest
    else a :: set rest i

end NodeBS

/-- Addresses of statement objects. -/
abbrev StmtId := Nat

/-- Modelled from the spec: a memory object, by the three attributes that `SVFIR.cpp` reads
through `getId()`, `isFieldInsensitive()` and `getMaxFieldOffsetLimit()` (the class `MemObj`
is in a header that is not among the sources). -/
structure MemObj where
  id : NodeID
  fieldInsensitive : Bool
  maxFieldOffsetLimit : Nat
  deriving DecidableEq, Repr

/-- Modelled from the spec: an access path, by its constant field index and its list of
(variable, type) index operands (the class `AccessPath` is in a header that is not among
the sources). -/
structure AccessPath where
  fldIdx : APOffset
  idxOperandPairs : List (NodeID × Nat)
  deriving DecidableEq, Repr

/-- Modelled from the spec: the kinds of variables that `SVFIR.cpp` tells apart with `isa`
and `dyn_cast`, each with what the code reads from it: the memory object of an object
variable, the constant field index of a field object, and for an argument whether its
parent function is a declaration (the variable classes are in a header that is not among
the sources). -/
inductive SVFVarKind where
  | ValVar
  | ArgValVar (parentIsDeclaration : Bool)
  | GepValVar
  | DummyValVar
  | BaseObjVar (mem : MemObj)
  | GepObjVar (mem : MemObj) (constantFieldIdx : APOffset)
  | DummyObjVar (mem : MemObj)
  deriving DecidableEq, Repr

/-- Modelled from the spec: a variable (node) of the graph: its kind and its sets of
incoming and outgoing edges, which hold statement objects by address.  A node is identified
by the id it is stored under. -/
structure SVFVar where
  kind : SVFVarKind
  InEdges : List StmtId
  OutEdges : List StmtId
  deriving DecidableEq, Repr

namespace SVFVar

/-- The test `SVFUtil::isa<ObjVar>(node)`, with the memory object `getMemObj()` of an
object variable. -/
def asObjVar (node : SVFVar) : Option MemObj :=
  match node.kind with
  | .BaseObjVar mem => some mem
  | .GepObjVar mem _ => some mem
  | .DummyObjVar mem => some mem
  | _ => none

end SVFVar

/-- The statement kinds `SVFStmt::PEDGEK`. -/
inductive PEDGEK where
  | Addr | Copy | Store | Load | Call | Ret | Gep | Phi | Select | Cmp | BinaryOp | UnaryOp
  | Branch | ThreadFork | ThreadJoin
  deriving DecidableEq, Repr

/-- Modelled from the spec: a statement object: source, destination and kind, the label of
a labeled edge (none for a non-labeled edge), and the members of the subclasses that
`SVFIR.cpp` sets: the access path and variant-field flag of a `GepStmt`, the operand
variables of a multi-operand statement and the predecessor ICFG nodes of a `PhiStmt`, the
copy kind, predicate or opcode of a copy, comparison or operator statement, the condition
of a select or branch, the successors of a branch, and the ICFG nodes of a store, call or
return statement (the statement classes are in a header that is not among the sources). -/
structure SVFStmt where
  src : NodeID
  dst : NodeID
  kind : PEDGEK
  label : Option Nat
  ap : Option AccessPath
  variantField : Bool
  opVars : List NodeID
  opICFGNodes : List ICFGNode
  opcode : Option Nat := none
  condition : Option NodeID := none
  successors : List (ICFGNode × Int) := []
  icfgNode : Option ICFGNode := none
  funEntryOrExit : Option ICFGNode := none
  deriving DecidableEq, Repr

namespace SVFStmt

/-- The constructor `GepStmt(s, d, ap, varfld)` (`varfld` defaults to false). -/
def newGepStmt (s d : NodeID) (ap : AccessPath) (varfld : Bool) : SVFStmt :=
  { src := s, dst := d, kind := .Gep, label := none, ap := some ap, variantField := varfld,
    opVars := [], opICFGNodes := [] }

/-- The constructor `PhiStmt(res, opnds, icfgNodes)`: a multi-operand statement into `res`
whose edge leaves the first operand. -/
def newPhiStmt (res : NodeID) (opnds : List NodeID) (icfgNodes : List ICFGNode) : SVFStmt :=
  { src := opnds.headD res, dst := res, kind := .Phi, label := none, ap := none,
    variantField := false, opVars := opnds, opICFGNodes := icfgNodes }

/-- Modelled from the spec: the method `PhiStmt::addOpVar(op, inode)`, which is in a header
that is not among the sources: the operand and its predecessor node are appended, so that
the two lists stay paired. -/
def addOpVar (phi : SVFStmt) (op : NodeID) (inode : ICFGNode) : SVFStmt :=
  { phi with opVars := phi.opVars ++ [op], opICFGNodes := phi.opICFGNodes ++ [inode] }

/-- The method `GepStmt::isVariantFieldGep()`. -/
def isVariantFieldGep (gep : SVFStmt) : Bool := gep.variantField

end SVFStmt

/-- The data members of the graph that the functions below read and write: the node map,
the statement objects by address, the set of statements (`KindToSVFStmtSetMap`, all kinds
together), `phiNodeMap`, `GepObjVarMap`, `memToFieldsMap`, `GepValObjMap`, and the state of
the node-id allocator. -/
structure SVFIR where
  IDToNodeMap : Map NodeID SVFVar
  stmtObjects : Map StmtId SVFStmt
  KindToSVFStmtSetMap : List StmtId
  phiNodeMap : Map NodeID StmtId
  GepObjVarMap : Map (NodeID × APOffset) NodeID
  memToFieldsMap : Map NodeID NodeBS
  GepValObjMap : Map Nat (Map (NodeID × AccessPath) NodeID)
  nodeIDAllocator : Nat
  deriving DecidableEq

/-- What `SVFIR.cpp` calls and reads that is defined outside the sources: the offset
reduction `getModulusOffset` of the symbol table, the options `FirstFieldEqBase` and
`MaxFieldLimit`, the allocator call `allocateGepObjectId` (from the base, the offset, the
field limit and the allocator state to the new id and the allocator state afterwards), the
field-insensitive node `getFIObjVar` of a memory object, the answers of `hasValue()` and
`isPointer()` for the node of an id, `getBaseValVar`, and the node `getValueNode` of a
value (values are given by address). -/
structure Externals where
  getModulusOffset : MemObj → APOffset → APOffset
  FirstFieldEqBase : Bool
  MaxFieldLimit : Nat
  allocateGepObjectId : NodeID → APOffset → Nat → Nat → NodeID × Nat
  getFIObjVar : MemObj → NodeID
  hasValue : NodeID → Bool
  isPointer : NodeID → Bool
  getBaseValVar : NodeID → Option SVFVar
  getValueNode : Nat → NodeID

namespace Externals

/-- One choice of the outside functions: offsets are reduced modulo the field limit of the
object (after taking the absolute value), the first field is distinct from the base, node
ids are handed out in sequence from 100, the field-insensitive node of an object is the
node of its id, every node has a value and is a pointer, no node has a base value
variable, and the node of a value has the number of its address. -/
def cyclic : Externals :=
  { getModulusOffset := fun obj off => ((off.natAbs % obj.maxFieldOffsetLimit : Nat) : Int)
    FirstFieldEqBase := false
    MaxFieldLimit := 512
    allocateGepObjectId := fun _ _ _ n => (100 + n, n + 1)
    getFIObjVar := fun obj => obj.id
    hasValue := fun _ => true
    isPointer := fun _ => true
    getBaseValVar := fun _ => none
    getValueNode := fun v => v }

end Externals

/-- The outcome of a call: a failed assertion with its message, or a value. -/
abbrev Outcome (α : Type) := Except String α

namespace Map

variable {K V : Type} [DecidableEq K]

/-- The assignment `m[k] = v`: the entry under `k` is overwritten, or added when there is
none. -/
def assign : Map K V → K → V → Map K V
  | [], key, v => [(key, v)]
  | (k, w) :: rest, key, v =>
    if k = key then (k, v) :: rest else (k, w) :: assign rest key v

/-- A change made in place to the object stored under a key. -/
def modify : Map K V → K → (V → V) → Map K V
  | [], _, _ => []
  | (k, w) :: rest, key, g => (k, if k = key then g w else w) :: modify rest key g

end Map

namespace SVFIR

/-- The graph with no node and no statement. -/
def empty : SVFIR :=
  { IDToNodeMap := [], stmtObjects := [], KindToSVFStmtSetMap := [], phiNodeMap := [],
    GepObjVarMap := [], memToFieldsMap := [], GepValObjMap := [], nodeIDAllocator := 0 }

/-- A graph of three value variables 1, 2 and 3 without statements. -/
def threeValVars : SVFIR :=
  { empty with IDToNodeMap :=
      [(1, ⟨.ValVar, [], []⟩), (2, ⟨.ValVar, [], []⟩), (3, ⟨.ValVar, [], []⟩)] }

/-- Modelled from the spec: the lookup `getGNode(id)` of the graph, which is in a header
that is not among the sources: the node stored under the id; a missing node fails its
assertion. -/
def getGNode (pag : SVFIR) (id : NodeID) : Outcome SVFVar :=
  match Map.find pag.IDToNodeMap id with
  | none => .error "Node not found!"
  | some node => .ok node

/-- The statement object at an address. -/
def stmtAt (pag : SVFIR) (e : StmtId) : Option SVFStmt := Map.find pag.stmtObjects e

/-- An address above every address in use. -/
def freshAddress (pag : SVFIR) : StmtId :=
  (Map.keys pag.stmtObjects).foldr (fun k acc => max (k + 1) acc) 0

/-- The allocation `new S(...)` of a statement object: the object is stored at a fresh
address, which is returned. -/
def newStmt (pag : SVFIR) (stmt : SVFStmt) : StmtId × SVFIR :=
  (pag.freshAddress,
    { pag with stmtObjects := pag.stmtObjects ++ [(pag.freshAddress, stmt)] })

/-- Modelled from the spec: the query `hasNonlabeledEdge(src, dst, kind)` of the graph,
which is in a source file that is not among the sources: whether the statement set holds a
non-labeled statement of that kind from `src` to `dst`. -/
def hasNonlabeledEdge (pag : SVFIR) (src dst : NodeID) (kind : PEDGEK) : Bool :=
  pag.KindToSVFStmtSetMap.any (fun e =>
    match pag.stmtAt e with
    | some stmt =>
      decide (stmt.src = src) && decide (stmt.dst = dst) && decide (stmt.kind = kind)
        && decide (stmt.label = none)
    | none => false)

/-- Modelled from the spec: the bookkeeping `addToStmt2TypeMap(edge)` of the graph, which
is in a header that is not among the sources: the statement is put into the statement
set. -/
def addToStmt2TypeMap (pag : SVFIR) (e : StmtId) : SVFIR :=
  { pag with KindToSVFStmtSetMap := pag.KindToSVFStmtSetMap ++ [e] }

/-- Modelled from the spec: the call `addEdge(src, dst, edge)` of the graph, which is in a
source file that is not among the sources: the statement becomes an outgoing edge of `src`
and an incoming edge of `dst`. -/
def addEdge (pag : SVFIR) (src dst : NodeID) (e : StmtId) : SVFIR :=
  let nodes1 := Map.modify pag.IDToNodeMap src
    (fun node => { node with OutEdges := node.OutEdges ++ [e] })
  let nodes2 := Map.modify nodes1 dst
    (fun node => { node with InEdges := node.InEdges ++ [e] })
  { pag with IDToNodeMap := nodes2 }

/-- Modelled from the spec: the method `hasIncomingVariantGepEdge()` of a variable, which
is in a header that is not among the sources: whether one of the incoming edges of the
node is a `Gep` statement with the variant-field flag. -/
def hasIncomingVariantGepEdge (pag : SVFIR) (node : SVFVar) : Bool :=
  node.InEdges.any (fun e =>
    match pag.stmtAt e with
    | some stmt => decide (stmt.kind = .Gep) && stmt.isVariantFieldGep
    | none => false)

/-- The shared body of `addNormalGepStmt` and `addVariantGepStmt`, which differ in the
variant-field flag passed to the `GepStmt` constructor.  The result is the address of the
new statement, or `none` for `nullptr`. -/
def addGepStmtWith (varfld : Bool) (pag : SVFIR) (src dst : NodeID) (ap : AccessPath) :
    Outcome (Option StmtId × SVFIR) :=
  match pag.getGNode src with
  | .error msg => .error msg
  | .ok _ =>
    match pag.getGNode dst with
    | .error msg => .error msg
    | .ok _ =>
      if pag.hasNonlabeledEdge src dst .Gep then .ok (none, pag)
      else
        let r := pag.newStmt (SVFStmt.newGepStmt src dst ap varfld)
        let pag1 := r.2.addToStmt2TypeMap r.1
        let pag2 := pag1.addEdge src dst r.1
        .ok (some r.1, pag2)

/-- The method `addNormalGepStmt(src, dst, ap)`. -/
def addNormalGepStmt (pag : SVFIR) (src dst : NodeID) (ap : AccessPath) :
    Outcome (Option StmtId × SVFIR) :=
  addGepStmtWith false pag src dst ap

/-- The method `addVariantGepStmt(src, dst, ap)`. -/
def addVariantGepStmt (pag : SVFIR) (src dst : NodeID) (ap : AccessPath) :
    Outcome (Option StmtId × SVFIR) :=
  addGepStmtWith true pag src dst ap

/-- The method `addGepStmt(src, dst, ap, constGep)`. -/
def addGepStmt (pag : SVFIR) (src dst : NodeID) (ap : AccessPath) (constGep : Bool) :
    Outcome (Option StmtId × SVFIR) :=
  match pag.getGNode src with
  | .error msg => .error msg
  | .ok node =>
    if !constGep || pag.hasIncomingVariantGepEdge node then
      addVariantGepStmt pag src dst ap
    else
      addNormalGepStmt pag src dst ap

/-- The method `addPhiStmt(res, opnd, pred)`.  The result is the address of the new
statement, or `none` for `nullptr`. -/
def addPhiStmt (pag : SVFIR) (res opnd : NodeID) (pred : ICFGNode) :
    Outcome (Option StmtId × SVFIR) :=
  match pag.getGNode opnd with
  | .error msg => .error msg
  | .ok _ =>
    match pag.getGNode res with
    | .error msg => .error msg
    | .ok _ =>
      match Map.find pag.phiNodeMap res with
      | none =>
        let r := pag.newStmt (SVFStmt.newPhiStmt res [opnd] [pred])
        let pag1 := r.2.addToStmt2TypeMap r.1
        let pag2 := pag1.addEdge opnd res r.1
        let pag3 := { pag2 with phiNodeMap := Map.assign pag2.phiNodeMap res r.1 }
        .ok (some r.1, pag3)
      | some phi =>
        let pag1 := { pag with
          stmtObjects := Map.modify pag.stmtObjects phi (fun stmt => stmt.addOpVar opnd pred) }
        .ok (none, pag1)

/-- The calls `addPhiStmt(res, op_1, pred_1)`, ..., `addPhiStmt(res, op_n, pred_n)` in this
order, each on the graph the previous one left: the list of their results and the graph
after the last. -/
def addPhiStmtCalls (res : NodeID) :
    SVFIR → List (NodeID × ICFGNode) → Outcome (List (Option StmtId) × SVFIR)
  | pag, [] => .ok ([], pag)
  | pag, (opnd, pred) :: rest =>
    match addPhiStmt pag res opnd pred with
    | .error msg => .error msg
    | .ok r =>
      match addPhiStmtCalls res r.2 rest with
      | .error msg => .error msg
      | .ok rs => .ok (r.1 :: rs.1, rs.2)

/-- Modelled from the spec: the call `addObjNode(val, node, i)` of the graph, which is in a
header that is not among the sources: the node is stored under the id, which is
returned. -/
def addObjNode (pag : SVFIR) (node : SVFVar) (i : NodeID) : NodeID × SVFIR :=
  (i, { pag with IDToNodeMap := Map.assign pag.IDToNodeMap i node })

/-- The method `addGepObjNode(obj, apOffset, gepId)`. -/
def addGepObjNode (pag : SVFIR) (obj : MemObj) (apOffset : APOffset) (gepId : NodeID) :
    Outcome (NodeID × SVFIR) :=
  let base := obj.id
  if Map.count pag.GepObjVarMap (base, apOffset) ≠ 0 then
    .error "this node should not be created before"
  else
    let pag1 := { pag with GepObjVarMap := Map.assign pag.GepObjVarMap (base, apOffset) gepId }
    let node : SVFVar := { kind := .GepObjVar obj apOffset, InEdges := [], OutEdges := [] }
    let fields := Map.subscript [] pag1.memToFieldsMap base
    let pag2 := { pag1 with
      memToFieldsMap := Map.assign fields.2 base (NodeBS.set fields.1 gepId) }
    .ok (pag2.addObjNode node gepId)

/-- The method `getGepObjVar(obj, apOffset)` on a memory object. -/
def getGepObjVar (ext : Externals) (pag : SVFIR) (obj : MemObj) (apOffset : APOffset) :
    Outcome (NodeID × SVFIR) :=
  let base := obj.id
  if obj.fieldInsensitive then .ok (ext.getFIObjVar obj, pag)
  else
    let newLS := ext.getModulusOffset obj apOffset
    if ext.FirstFieldEqBase && decide (newLS = 0) then .ok (base, pag)
    else
      match Map.find pag.GepObjVarMap (base, newLS) with
      | none =>
        let a := ext.allocateGepObjectId base apOffset ext.MaxFieldLimit pag.nodeIDAllocator
        addGepObjNode { pag with nodeIDAllocator := a.2 } obj newLS a.1
      | some id => .ok (id, pag)

/-- A sequence of calls `getGepObjVar(obj, offset)`, one for each offset of the list, each
on the graph the previous one left. -/
def getGepObjVarCalls (ext : Externals) (obj : MemObj) :
    SVFIR → List APOffset → Outcome SVFIR
  | pag, [] => .ok pag
  | pag, offset :: rest =>
    match getGepObjVar ext pag obj offset with
    | .error msg => .error msg
    | .ok r => getGepObjVarCalls ext obj r.2 rest

/-- The entries of `GepObjVarMap` whose base is the given node. -/
def gepObjEntriesOf (pag : SVFIR) (base : NodeID) : List ((NodeID × APOffset) × NodeID) :=
  pag.GepObjVarMap.filter (fun entry => decide (entry.1.1 = base))

/-- The method `getAllFieldsObjVars(obj)` on a memory object: the set and the graph
afterwards (the subscript adds an empty set for an object without one). -/
def getAllFieldsObjVars (pag : SVFIR) (obj : MemObj) : NodeBS × SVFIR :=
  let base := obj.id
  let r := Map.subscript [] pag.memToFieldsMap base
  (r.1, { pag with memToFieldsMap := r.2 })

/-- The method `getFieldsAfterCollapse(id)`. -/
def getFieldsAfterCollapse (ext : Externals) (pag : SVFIR) (id : NodeID) :
    Outcome (NodeBS × SVFIR) :=
  match pag.getGNode id with
  | .error msg => .error msg
  | .ok node =>
    match node.asObjVar with
    | none => .error "need an object node"
    | some mem =>
      if mem.fieldInsensitive then .ok (NodeBS.set [] (ext.getFIObjVar mem), pag)
      else .ok (pag.getAllFieldsObjVars mem)

/-- The method `isValidPointer(nodeId)`. -/
def isValidPointer (ext : Externals) (pag : SVFIR) (nodeId : NodeID) : Outcome Bool :=
  match pag.getGNode nodeId with
  | .error msg => .error msg
  | .ok node =>
    let isArgOfDefinition : Bool :=
      ext.hasValue nodeId && ext.isPointer nodeId &&
        (match ext.getBaseValVar nodeId with
          | some pVar =>
            (match pVar.kind with
              | .ArgValVar parentIsDeclaration => !parentIsDeclaration
              | _ => false)
          | none => false)
    if isArgOfDefinition then .ok true
    else if node.InEdges.isEmpty && node.OutEdges.isEmpty then .ok false
    else .ok (ext.isPointer nodeId)

end SVFIR

/-! ## Constant data and call instructions (`SVFIR/SVFValue.h`) -/

namespace SVFValue

/-- The getter `getKind()`. -/
def getKind (v : SVFValue) : SVFValKind := v.kind

/-- The getter `isConstDataOrAggData()`. -/
def isConstDataOrAggData (v : SVFValue) : Bool := v.constDataOrAggData

/-- The setter `setConstDataOrAggData()`, for module builders. -/
def setConstDataOrAggData (v : SVFValue) : SVFValue := { v with constDataOrAggData := true }

end SVFValue

namespace SVFConstantData

/-- The constructor `SVFConstantData(ty, k)`, through `SVFConstant(ty, k)` to
`SVFValue(ty, k)`. -/
def new (ty : Nat) (k : SVFValKind) : SVFValue := SVFValue.new ty k

/-- The test `SVFConstantData::classof(node)`. -/
def classof (node : SVFValue) : Bool :=
  decide (node.getKind = .SVFConstData) ||
  decide (node.getKind = .SVFConstInt) ||
  decide (node.getKind = .SVFConstFP) ||
  decide (node.getKind = .SVFNullPtr) ||
  decide (node.getKind = .SVFBlackHole)

end SVFConstantData

/-- The constructor `SVFConstantInt(ty, z, s)`: the `SVFValue` part of the object. -/
def SVFConstantInt.new (ty : Nat) (_z : Nat) (_s : Int) : SVFValue :=
  SVFConstantData.new ty .SVFConstInt

/-- The constructor `SVFConstantFP(ty, d)`: the `SVFValue` part of the object. -/
def SVFConstantFP.new (ty : Nat) : SVFValue := SVFConstantData.new ty .SVFConstFP

/-- The constructor `SVFConstantNullPtr(ty)`. -/
def SVFConstantNullPtr.new (ty : Nat) : SVFValue := SVFConstantData.new ty .SVFNullPtr

/-- The constructor `SVFBlackHoleValue(ty)`. -/
def SVFBlackHoleValue.new (ty : Nat) : SVFValue := SVFConstantData.new ty .SVFBlackHole

/-- The members of `SVFCallInst`: the argument vector (values by address), the variadic
flag and the called operand. -/
structure SVFCallInst where
  args : List Nat
  varArg : Bool
  calledVal : Option Nat
  deriving DecidableEq, Repr

namespace SVFCallInst

/-- The constructor `SVFCallInst(ty, b, va, tm, k)`: the members of the call
instruction. -/
def new (va : Bool) : SVFCallInst := { args := [], varArg := va, calledVal := none }

/-- The method `addArgument(a)`. -/
def addArgument (call : SVFCallInst) (a : Nat) : SVFCallInst :=
  { call with args := call.args ++ [a] }

/-- The calls `addArgument(a_0)`, ..., `addArgument(a_{k-1})` in this order. -/
def addArguments (call : SVFCallInst) (as : List Nat) : SVFCallInst :=
  as.foldl addArgument call

/-- The method `arg_size()`, which returns the size of the vector as a `u32_t`. -/
def arg_size (call : SVFCallInst) : Nat := call.args.length % 2 ^ 32

/-- The method `arg_empty()`. -/
def arg_empty (call : SVFCallInst) : Bool := call.args.isEmpty

/-- The method `getNumArgOperands()`. -/
def getNumArgOperands (call : SVFCallInst) : Nat := call.arg_size

/-- The method `getArgOperand(i)`. -/
def getArgOperand (call : SVFCallInst) (i : Nat) : Outcome Nat :=
  if i < call.arg_size then
    match call.args.get? i with
    | some a => .ok a
    | none => .error "vector subscript out of range"
  else .error "out of bound access of the argument"

end SVFCallInst

/-! ## More of the program assignment graph: field values and the statement adders -/

/-- The constant `UINT_MAX`. -/
def UINT_MAX : Nat := 2 ^ 32 - 1

namespace SVFStmt

/-- A statement object with source, destination, kind and label, and no further member
set.  The statement classes are in a header that is not among the sources; the constructors
below follow the calls in `SVFIR.cpp` and the keys of its presence queries. -/
def plain (s d : NodeID) (k : PEDGEK) (label : Option Nat) : SVFStmt :=
  { src := s, dst := d, kind := k, label := label, ap := none, variantField := false,
    opVars := [], opICFGNodes := [] }

/-- Modelled from the spec: the constructor `AddrStmt(s, d)` of the statement header. -/
def newAddrStmt (s d : NodeID) : SVFStmt := plain s d .Addr none

/-- Modelled from the spec: the constructor `CopyStmt(s, d, k)` of the statement header. -/
def newCopyStmt (s d : NodeID) (k : Nat) : SVFStmt :=
  { plain s d .Copy none with opcode := some k }

/-- Modelled from the spec: the constructor `LoadStmt(s, d)` of the statement header. -/
def newLoadStmt (s d : NodeID) : SVFStmt := plain s d .Load none

/-- Modelled from the spec: the constructor `UnaryOPStmt(s, d, oc)` of the statement
header. -/
def newUnaryOPStmt (s d : NodeID) (oc : Nat) : SVFStmt :=
  { plain s d .UnaryOp none with opcode := some oc }

/-- Modelled from the spec: the constructor `BranchStmt(inst, c, succs)` of the statement
header: the edge goes from the condition to the branch. -/
def newBranchStmt (inst c : NodeID) (succs : List (ICFGNode × Int)) : SVFStmt :=
  { plain c inst .Branch none with condition := some c, successors := succs }

/-- Modelled from the spec: the constructor `CmpStmt(s, opnds, pre)` of the statement
header: the edge goes from the first operand to the result and is labeled with the second
operand. -/
def newCmpStmt (s : NodeID) (op1 op2 : NodeID) (pre : Nat) : SVFStmt :=
  { plain op1 s .Cmp (some op2) with opVars := [op1, op2], opcode := some pre }

/-- Modelled from the spec: the constructor `BinaryOPStmt(s, opnds, oc)` of the statement
header: the edge goes from the first operand to the result and is labeled with the second
operand. -/
def newBinaryOPStmt (s : NodeID) (op1 op2 : NodeID) (oc : Nat) : SVFStmt :=
  { plain op1 s .BinaryOp (some op2) with opVars := [op1, op2], opcode := some oc }

/-- Modelled from the spec: the constructor `SelectStmt(s, opnds, cond)` of the statement
header: the edge goes from the first operand to the result and is labeled with the second
operand. -/
def newSelectStmt (s : NodeID) (op1 op2 : NodeID) (cond : NodeID) : SVFStmt :=
  { plain op1 s .Select (some op2) with opVars := [op1, op2], condition := some cond }

/-- Modelled from the spec: the constructor `StoreStmt(s, d, st)` of the statement header:
the edge is labeled with the ICFG node. -/
def newStoreStmt (s d : NodeID) (st : ICFGNode) : SVFStmt :=
  { plain s d .Store (some st) with icfgNode := some st }

/-- Modelled from the spec: the constructors `CallPE(s, d, i, e)`, `RetPE(s, d, i, e)`,
`TDForkPE(s, d, i, e)` and `TDJoinPE(s, d, i, e)` of the statement header, by kind: the
edge is labeled with the call site. -/
def newCallOrRetPE (k : PEDGEK) (s d : NodeID) (i : ICFGNode) (e : ICFGNode) : SVFStmt :=
  { plain s d k (some i) with icfgNode := some i, funEntryOrExit := some e }

end SVFStmt

namespace SVFIR

/-- Modelled from the spec: the queries `hasLabeledEdge(src, dst, kind, op2)` and
`hasLabeledEdge(src, dst, kind, callInst)` of the graph, which are in a source file that is
not among the sources: whether the statement set holds a statement of that kind from `src`
to `dst` with that label (the second operand, or the ICFG node). -/
def hasLabeledEdge (pag : SVFIR) (src dst : NodeID) (kind : PEDGEK) (label : Nat) : Bool :=
  pag.KindToSVFStmtSetMap.any (fun e =>
    match pag.stmtAt e with
    | some stmt =>
      decide (stmt.src = src) && decide (stmt.dst = dst) && decide (stmt.kind = kind)
        && decide (stmt.label = some label)
    | none => false)

/-- The lookups `getGNode(id)` at the head of an adder, for the ids in the order of the
code: the first missing node fails its assertion. -/
def getGNodes (pag : SVFIR) : List NodeID → Outcome Unit
  | [] => .ok ()
  | id :: rest =>
    match pag.getGNode id with
    | .error msg => .error msg
    | .ok _ => getGNodes pag rest

/-- The `else` branch that the adders share: the statement object is allocated, recorded
with `addToStmt2TypeMap` and made an edge with `addEdge(src, dst, stmt)`; its address is
returned. -/
def addNewStmt (pag : SVFIR) (src dst : NodeID) (stmt : SVFStmt) : Option StmtId × SVFIR :=
  let r := pag.newStmt stmt
  let pag1 := r.2.addToStmt2TypeMap r.1
  let pag2 := pag1.addEdge src dst r.1
  (some r.1, pag2)

/-- The method `addAddrStmt(src, dst)`. -/
def addAddrStmt (pag : SVFIR) (src dst : NodeID) : Outcome (Option StmtId × SVFIR) :=
  match pag.getGNodes [src, dst] with
  | .error msg => .error msg
  | .ok _ =>
    if pag.hasNonlabeledEdge src dst .Addr then .ok (none, pag)
    else .ok (pag.addNewStmt src dst (SVFStmt.newAddrStmt src dst))

/-- The method `addCopyStmt(src, dst, type)`. -/
def addCopyStmt (pag : SVFIR) (src dst : NodeID) (type : Nat) :
    Outcome (Option StmtId × SVFIR) :=
  match pag.getGNodes [src, dst] with
  | .error msg => .error msg
  | .ok _ =>
    if pag.hasNonlabeledEdge src dst .Copy then .ok (none, pag)
    else .ok (pag.addNewStmt src dst (SVFStmt.newCopyStmt src dst type))

/-- The method `addSelectStmt(res, op1, op2, cond)`. -/
def addSelectStmt (pag : SVFIR) (res op1 op2 cond : NodeID) :
    Outcome (Option StmtId × SVFIR) :=
  match pag.getGNodes [op1, op2, res, cond] with
  | .error msg => .error msg
  | .ok _ =>
    if pag.hasLabeledEdge op1 res .Select op2 then .ok (none, pag)
    else .ok (pag.addNewStmt op1 res (SVFStmt.newSelectStmt res op1 op2 cond))

/-- The method `addCmpStmt(op1, op2, dst, predicate)`. -/
def addCmpStmt (pag : SVFIR) (op1 op2 dst : NodeID) (predicate : Nat) :
    Outcome (Option StmtId × SVFIR) :=
  match pag.getGNodes [op1, op2, dst] with
  | .error msg => .error msg
  | .ok _ =>
    if pag.hasLabeledEdge op1 dst .Cmp op2 then .ok (none, pag)
    else .ok (pag.addNewStmt op1 dst (SVFStmt.newCmpStmt dst op1 op2 predicate))

/-- The method `addBinaryOPStmt(op1, op2, dst, opcode)`. -/
def addBinaryOPStmt (pag : SVFIR) (op1 op2 dst : NodeID) (opcode : Nat) :
    Outcome (Option StmtId × SVFIR) :=
  match pag.getGNodes [op1, op2, dst] with
  | .error msg => .error msg
  | .ok _ =>
    if pag.hasLabeledEdge op1 dst .BinaryOp op2 then .ok (none, pag)
    else .ok (pag.addNewStmt op1 dst (SVFStmt.newBinaryOPStmt dst op1 op2 opcode))

/-- The method `addUnaryOPStmt(src, dst, opcode)`. -/
def addUnaryOPStmt (pag : SVFIR) (src dst : NodeID) (opcode : Nat) :
    Outcome (Option StmtId × SVFIR) :=
  match pag.getGNodes [src, dst] with
  | .error msg => .error msg
  | .ok _ =>
    if pag.hasNonlabeledEdge src dst .UnaryOp then .ok (none, pag)
    else .ok (pag.addNewStmt src dst (SVFStmt.newUnaryOPStmt src dst opcode))

/-- The method `addBranchStmt(br, cond, succs)`. -/
def addBranchStmt (pag : SVFIR) (br cond : NodeID) (succs : List (ICFGNode × Int)) :
    Outcome (Option StmtId × SVFIR) :=
  match pag.getGNodes [br, cond] with
  | .error msg => .error msg
  | .ok _ =>
    if pag.hasNonlabeledEdge cond br .Branch then .ok (none, pag)
    else .ok (pag.addNewStmt cond br (SVFStmt.newBranchStmt br cond succs))

/-- The method `addLoadStmt(src, dst)`. -/
def addLoadStmt (pag : SVFIR) (src dst : NodeID) : Outcome (Option StmtId × SVFIR) :=
  match pag.getGNodes [src, dst] with
  | .error msg => .error msg
  | .ok _ =>
    if pag.hasNonlabeledEdge src dst .Load then .ok (none, pag)
    else .ok (pag.addNewStmt src dst (SVFStmt.newLoadStmt src dst))

/-- The method `addStoreStmt(src, dst, curVal)`. -/
def addStoreStmt (pag : SVFIR) (src dst : NodeID) (curVal : ICFGNode) :
    Outcome (Option StmtId × SVFIR) :=
  match pag.getGNodes [src, dst] with
  | .error msg => .error msg
  | .ok _ =>
    if pag.hasLabeledEdge src dst .Store curVal then .ok (none, pag)
    else .ok (pag.addNewStmt src dst (SVFStmt.newStoreStmt src dst curVal))

/-- The method `addCallPE(src, dst, cs, entry)`. -/
def addCallPE (pag : SVFIR) (src dst : NodeID) (cs entry : ICFGNode) :
    Outcome (Option StmtId × SVFIR) :=
  match pag.getGNodes [src, dst] with
  | .error msg => .error msg
  | .ok _ =>
    if pag.hasLabeledEdge src dst .Call cs then .ok (none, pag)
    else .ok (pag.addNewStmt src dst (SVFStmt.newCallOrRetPE .Call src dst cs entry))

/-- The method `addRetPE(src, dst, cs, exit)`. -/
def addRetPE (pag : SVFIR) (src dst : NodeID) (cs exit : ICFGNode) :
    Outcome (Option StmtId × SVFIR) :=
  match pag.getGNodes [src, dst] with
  | .error msg => .error msg
  | .ok _ =>
    if pag.hasLabeledEdge src dst .Ret cs then .ok (none, pag)
    else .ok (pag.addNewStmt src dst (SVFStmt.newCallOrRetPE .Ret src dst cs exit))

/-- The method `addThreadForkPE(src, dst, cs, entry)`. -/
def addThreadForkPE (pag : SVFIR) (src dst : NodeID) (cs entry : ICFGNode) :
    Outcome (Option StmtId × SVFIR) :=
  match pag.getGNodes [src, dst] with
  | .error msg => .error msg
  | .ok _ =>
    if pag.hasLabeledEdge src dst .ThreadFork cs then .ok (none, pag)
    else .ok (pag.addNewStmt src dst (SVFStmt.newCallOrRetPE .ThreadFork src dst cs entry))

/-- The method `addThreadJoinPE(src, dst, cs, exit)`. -/
def addThreadJoinPE (pag : SVFIR) (src dst : NodeID) (cs exit : ICFGNode) :
    Outcome (Option StmtId × SVFIR) :=
  match pag.getGNodes [src, dst] with
  | .error msg => .error msg
  | .ok _ =>
    if pag.hasLabeledEdge src dst .ThreadJoin cs then .ok (none, pag)
    else .ok (pag.addNewStmt src dst (SVFStmt.newCallOrRetPE .ThreadJoin src dst cs exit))

/-- The incoming edges of the node of an id (none when there is no node). -/
def inEdgesOf (pag : SVFIR) (n : NodeID) : List StmtId :=
  match Map.find pag.IDToNodeMap n with
  | some node => node.InEdges
  | none => []

/-- The outgoing edges of the node of an id (none when there is no node). -/
def outEdgesOf (pag : SVFIR) (n : NodeID) : List StmtId :=
  match Map.find pag.IDToNodeMap n with
  | some node => node.OutEdges
  | none => []

/-- What it is for an adder, read as a function of the graph, not to duplicate a statement
from `src` to `dst`: the first call returns a new statement object, which becomes the one
new member of the statement set, the one new outgoing edge of `src` and the one new
incoming edge of `dst`; a second call returns null and leaves the graph as it is. -/
def AddsOnce (pag : SVFIR) (src dst : NodeID)
    (adder : SVFIR → Outcome (Option StmtId × SVFIR)) : Prop :=
  ∃ e pag1, adder pag = .ok (some e, pag1) ∧
    pag.stmtAt e = none ∧
    (∃ stmt, pag1.stmtAt e = some stmt ∧ stmt.src = src ∧ stmt.dst = dst) ∧
    pag1.KindToSVFStmtSetMap = pag.KindToSVFStmtSetMap ++ [e] ∧
    (∀ n, pag1.outEdgesOf n = pag.outEdgesOf n ++ (if n = src then [e] else [])) ∧
    (∀ n, pag1.inEdgesOf n = pag.inEdgesOf n ++ (if n = dst then [e] else [])) ∧
    adder pag1 = .ok (none, pag1)

/-- Modelled from the spec: the call `addValNode(val, node, i)` of the graph, which is in a
header that is not among the sources: the node is stored under the id, which is
returned. -/
def addValNode (pag : SVFIR) (node : SVFVar) (i : NodeID) : NodeID × SVFIR :=
  (i, { pag with IDToNodeMap := Map.assign pag.IDToNodeMap i node })

/-- The method `addGepValNode(curInst, gepVal, ap, i, type)`; the instruction and the value
are given by address. -/
def addGepValNode (ext : Externals) (pag : SVFIR) (curInst gepVal : Nat) (ap : AccessPath)
    (i : NodeID) (_type : Nat) : Outcome (NodeID × SVFIR) :=
  let base := ext.getValueNode gepVal
  let inner := Map.subscript [] pag.GepValObjMap curInst
  if Map.count inner.1 (base, ap) ≠ 0 then
    .error "this node should not be created before"
  else
    let pag1 := { pag with
      GepValObjMap := Map.assign inner.2 curInst (Map.assign inner.1 (base, ap) i) }
    let node : SVFVar := { kind := .GepValVar, InEdges := [], OutEdges := [] }
    .ok (pag1.addValNode node i)

/-- The method `getGepValVar(curInst, base, ap)`: its result and the graph afterwards. -/
def getGepValVar (pag : SVFIR) (curInst : Nat) (base : NodeID) (ap : AccessPath) :
    NodeID × SVFIR :=
  match Map.find pag.GepValObjMap curInst with
  | none => (UINT_MAX, pag)
  | some inner =>
    match Map.find inner (base, ap) with
    | none => (UINT_MAX, pag)
    | some i => (i, pag)

end SVFIR

/-! ## Theorems: predicate tables -/

namespace AbstractInterpretation

open Predicate

/-- C1: the reverse-predicate table at `ICMP_UGT`: the table sends it to `ICMP_ULE`, which
has no entry, so the second lookup finds nothing; the same happens at `ICMP_SGT`, and these
are the only two keys where looking up twice does not give the key back. -/
theorem reverse_twice_fails_exactly_at_UGT_SGT :
    reverse ICMP_UGT = some ICMP_ULE ∧ reverse ICMP_ULE = none ∧
    reverse ICMP_SGT = some ICMP_SLE ∧ reverse ICMP_SLE = none ∧
    ∀ p ∈ Map.keys _reverse_predicate,
      ((reverse p).bind reverse = some p ↔ (p ≠ ICMP_UGT ∧ p ≠ ICMP_SGT)) := by
  decide

/-- C2: the swap-predicate table at `ICMP_UGE`: the table sends it to `ICMP_ULE`, which
has no entry, so the second lookup finds nothing; the same happens at `ICMP_SGE`, and these
are the only two keys where looking up twice does not give the key back. -/
theorem swap_twice_fails_exactly_at_UGE_SGE :
    swap ICMP_UGE = some ICMP_ULE ∧ swap ICMP_ULE = none ∧
    swap ICMP_SGE = some ICMP_SLE ∧ swap ICMP_SLE = none ∧
    ∀ p ∈ Map.keys _switch_lhsrhs_predicate,
      ((swap p).bind swap = some p ↔ (p ≠ ICMP_UGE ∧ p ≠ ICMP_SGE)) := by
  decide

/-- C3, counterexample: the integer predicate `ICMP_ULE` and the float unordered relational
predicate `FCMP_UGT` have no entry in either table, and the reverse-predicate table has an
entry (`ICMP_UGT`) whose value is not a key. -/
theorem tables_not_total_on_claimed_predicates :
    reverse ICMP_ULE = none ∧ swap ICMP_ULE = none ∧
    reverse FCMP_UGT = none ∧ swap FCMP_UGT = none ∧
    reverse ICMP_UGT = some ICMP_ULE ∧ ICMP_ULE ∉ Map.keys _reverse_predicate := by
  decide

/-- C3, amended: each of the sixteen predicates `ICMP_EQ`, `ICMP_NE`, `ICMP_UGT`,
`ICMP_UGE`, `ICMP_ULT`, `ICMP_SGT`, `ICMP_SGE`, `ICMP_SLT`, `FCMP_OEQ`, `FCMP_UEQ`,
`FCMP_ONE`, `FCMP_UNE`, `FCMP_OGT`, `FCMP_OGE`, `FCMP_OLT`, `FCMP_OLE` has an entry in both
tables; the float unordered relational predicates have no entry in either; and the value
of every entry is one of the sixteen or one of `ICMP_ULE`, `ICMP_SLE`. -/
theorem tables_total_on_sixteen_predicates :
    (∀ p ∈ [ICMP_EQ, ICMP_NE, ICMP_UGT, ICMP_UGE, ICMP_ULT, ICMP_SGT, ICMP_SGE, ICMP_SLT,
        FCMP_OEQ, FCMP_UEQ, FCMP_ONE, FCMP_UNE, FCMP_OGT, FCMP_OGE, FCMP_OLT, FCMP_OLE],
      (reverse p).isSome = true ∧ (swap p).isSome = true) ∧
    (∀ p ∈ [FCMP_UGT, FCMP_UGE, FCMP_ULT, FCMP_ULE], reverse p = none ∧ swap p = none) ∧
    (∀ p q, (reverse p = some q ∨ swap p = some q) →
      q ∈ [ICMP_EQ, ICMP_NE, ICMP_UGT, ICMP_UGE, ICMP_ULT, ICMP_SGT, ICMP_SGE, ICMP_SLT,
        FCMP_OEQ, FCMP_UEQ, FCMP_ONE, FCMP_UNE, FCMP_OGT, FCMP_OGE, FCMP_OLT, FCMP_OLE]
      ∨ q = ICMP_ULE ∨ q = ICMP_SLE) := by
  refine ⟨by decide, by decide, fun p q h => ?_⟩
  cases p <;> simp [reverse, swap, _reverse_predicate, _switch_lhsrhs_predicate, Map.find] at h
    <;> rcases h with h | h <;> subst h <;> decide

/-- On integers, `x ≤ y` is the negation of `y < x`, as booleans. -/
theorem decide_le_eq_not_decide_lt (x y : Int) : decide (x ≤ y) = !decide (y < x) := by
  by_cases h : y < x <;> simp [h]
  omega

/-- On integers, `x < y` is the negation of `y ≤ x`, as booleans. -/
theorem decide_lt_eq_not_decide_le (x y : Int) : decide (x < y) = !decide (y ≤ x) := by
  by_cases h : y ≤ x <;> simp [h]
  omega

/-- C4: the reverse-predicate table gives the logical negation of every integer predicate
it has an entry for: at every bit width and for all operands, the table's value holds of
`(a, b)` exactly when the key does not. -/
theorem reverse_predicate_is_negation (p q : Predicate) (w : Nat) (a b : Int)
    (hp : isIntPredicate p = true) (hq : reverse p = some q) :
    ∃ v, evalICmp w p a b = some v ∧ evalICmp w q a b = some (!v) := by
  cases p <;> simp [isIntPredicate] at hp <;>
    simp [reverse, _reverse_predicate, Map.find] at hq <;>
    subst hq <;> simp [evalICmp] <;>
    first
      | exact em _
      | exact decide_le_eq_not_decide_lt _ _
      | exact decide_lt_eq_not_decide_le _ _

/-- Witness for C4 at `ICMP_SGT`, width 32, operands 5 and 0. -/
theorem reverse_predicate_is_negation_witness :
    ∃ v, evalICmp 32 ICMP_SGT 5 0 = some v ∧ evalICmp 32 ICMP_SLE 5 0 = some (!v) :=
  reverse_predicate_is_negation ICMP_SGT ICMP_SLE 32 5 0 (by decide) (by decide)

/-- C5: swapping the operands and replacing the predicate by its swap-table value keeps
the meaning of every integer predicate the table has an entry for: the table's value holds
of `(b, a)` exactly when the key holds of `(a, b)`. -/
theorem swap_predicate_preserves_semantics (p q : Predicate) (w : Nat) (a b : Int)
    (hp : isIntPredicate p = true) (hq : swap p = some q) :
    evalICmp w q b a = evalICmp w p a b ∧ (evalICmp w p a b).isSome = true := by
  cases p <;> simp [isIntPredicate] at hp <;>
    simp [swap, _switch_lhsrhs_predicate, Map.find] at hq <;>
    subst hq <;> simp [evalICmp] <;> exact eq_comm

/-- Witness for C5 at `ICMP_UGE`, width 8, operands 3 and 200. -/
theorem swap_predicate_preserves_semantics_witness :
    evalICmp 8 ICMP_ULE 200 3 = evalICmp 8 ICMP_UGE 3 200 ∧
      (evalICmp 8 ICMP_UGE 3 200).isSome = true :=
  swap_predicate_preserves_semantics ICMP_UGE ICMP_ULE 8 3 200 (by decide) (by decide)

end AbstractInterpretation

/-! ## Theorems: the abstract trace -/

namespace Map

variable {K V : Type} [DecidableEq K]

/-- A lookup finds nothing exactly when the key is not a key of the map. -/
theorem find_eq_none_iff (m : Map K V) (key : K) : find m key = none ↔ key ∉ keys m := by
  induction m with
  | nil => simp [find, keys]
  | cons e rest ih =>
    obtain ⟨k, v⟩ := e
    by_cases h : k = key
    · simp [find, keys, h]
    · simp only [find, h, if_false, ih, keys, List.map_cons, List.mem_cons, not_or]
      constructor
      · intro h2; exact ⟨fun h3 => h h3.symm, h2⟩
      · intro h2; exact h2.2

/-- The count is zero exactly when the key is not a key of the map. -/
theorem count_eq_zero_iff (m : Map K V) (key : K) : count m key = 0 ↔ key ∉ keys m := by
  rw [← find_eq_none_iff]
  unfold count
  cases find m key <;> simp

end Map

namespace AbstractInterpretation

/-- C8: `getAbsStateFromTrace(node)` fails its assertion exactly when the representative
of `node` is not a key of the trace; when the trace stores a state under the
representative, the call returns that state and the trace afterwards is the trace before. -/
theorem getAbsStateFromTrace_fails_iff_no_entry (getRepNode : ICFGNode → ICFGNode)
    (abstractTrace : Map ICFGNode AbstractState) (node : ICFGNode) :
    (getAbsStateFromTrace getRepNode abstractTrace node
        = .assertionFailed "No preAbsTrace for this node"
      ↔ getRepNode node ∉ Map.keys abstractTrace) ∧
    (match Map.find abstractTrace (getRepNode node) with
      | none => getRepNode node ∉ Map.keys abstractTrace
      | some s => getRepNode node ∈ Map.keys abstractTrace ∧
          getAbsStateFromTrace getRepNode abstractTrace node = .returned s abstractTrace) := by
  have hk := Map.find_eq_none_iff abstractTrace (getRepNode node)
  unfold getAbsStateFromTrace Map.subscript Map.count
  cases hf : Map.find abstractTrace (getRepNode node) with
  | none =>
    rw [hf] at hk
    simp [hf, hk.mp rfl]
  | some s =>
    rw [hf] at hk
    have hmem : getRepNode node ∈ Map.keys abstractTrace := by
      by_contra hc
      exact absurd (hk.mpr hc) (by simp)
    simp [hf, hmem]

/-- C9: `hasAbsStateFromTrace(node)` answers true exactly when the representative of
`node` is a key of the trace, and leaves the trace as it was; two nodes with the same
representative get the same answer from it and the same result from
`getAbsStateFromTrace`. -/
theorem hasAbsStateFromTrace_keyed_by_rep (getRepNode : ICFGNode → ICFGNode)
    (abstractTrace : Map ICFGNode AbstractState) (n1 n2 : ICFGNode)
    (h : getRepNode n1 = getRepNode n2) :
    ((hasAbsStateFromTrace getRepNode abstractTrace n1).1 = true
      ↔ getRepNode n1 ∈ Map.keys abstractTrace) ∧
    (hasAbsStateFromTrace getRepNode abstractTrace n1).2 = abstractTrace ∧
    (hasAbsStateFromTrace getRepNode abstractTrace n1).1
      = (hasAbsStateFromTrace getRepNode abstractTrace n2).1 ∧
    getAbsStateFromTrace getRepNode abstractTrace n1
      = getAbsStateFromTrace getRepNode abstractTrace n2 := by
  refine ⟨?_, rfl, ?_, ?_⟩
  · have hc := Map.count_eq_zero_iff abstractTrace (getRepNode n1)
    simp only [hasAbsStateFromTrace, decide_eq_true_eq, ne_eq, hc, not_not]
  · simp only [hasAbsStateFromTrace, h]
  · simp only [getAbsStateFromTrace, h]

/-- Witness for C9: nodes 4 and 5 share the representative 2, which has an entry. -/
theorem hasAbsStateFromTrace_keyed_by_rep_witness :
    ((hasAbsStateFromTrace (fun n => n / 2) [(2, [(7, ⟨.num 0, .num 1⟩)])] 4).1 = true
      ↔ (fun n => n / 2) 4 ∈ Map.keys [(2, [(7, (⟨.num 0, .num 1⟩ : IntervalValue))])]) ∧
    (hasAbsStateFromTrace (fun n => n / 2) [(2, [(7, ⟨.num 0, .num 1⟩)])] 4).2
      = [(2, [(7, ⟨.num 0, .num 1⟩)])] ∧
    (hasAbsStateFromTrace (fun n => n / 2) [(2, [(7, ⟨.num 0, .num 1⟩)])] 4).1
      = (hasAbsStateFromTrace (fun n => n / 2) [(2, [(7, ⟨.num 0, .num 1⟩)])] 5).1 ∧
    getAbsStateFromTrace (fun n => n / 2) [(2, [(7, ⟨.num 0, .num 1⟩)])] 4
      = getAbsStateFromTrace (fun n => n / 2) [(2, [(7, ⟨.num 0, .num 1⟩)])] 5 :=
  hasAbsStateFromTrace_keyed_by_rep (fun n => n / 2) [(2, [(7, ⟨.num 0, .num 1⟩)])] 4 5
    (by decide)

end AbstractInterpretation

/-! ## Theorems: the location checks -/

namespace Str

/-- A search for a needle that does not occur in the string returns `npos`. -/
theorem find_eq_none_of_not_infix (needle : List Char) :
    ∀ str : List Char, ¬ needle <:+: str → find str needle = none := by
  intro str
  induction str with
  | nil =>
    intro h
    simp only [find]
    split
    · rename_i hn
      subst hn
      exact absurd List.nil_infix h
    · rfl
  | cons c cs ih =>
    intro h
    simp only [find]
    split
    · rename_i hp
      exact absurd (List.isPrefixOf_iff_prefix.mp hp).isInfix h
    · rw [ih (fun hc => h (List.infix_cons hc))]
      rfl

end Str

namespace AbstractInterpretation

/-- C10: on a string that does not contain the line marker, `checkLineNumber` returns
false for every line number; on a string that does not contain the file marker,
`checkFileName` returns false for every file name; both return false on the source
location of a freshly constructed value. -/
theorem missing_marker_yields_not_found (str : List Char) :
    (¬ lnMarker <:+: str → ∀ i : Int, checkLineNumber str i = .ok false) ∧
    (¬ flMarker <:+: str → ∀ filename : List Char, checkFileName str filename = .ok false) ∧
    (∀ (ty : Nat) (k : SVFValKind) (i : Int),
      checkLineNumber (SVFValue.new ty k).getSourceLoc i = .ok false) ∧
    (∀ (ty : Nat) (k : SVFValKind) (filename : List Char),
      checkFileName (SVFValue.new ty k).getSourceLoc filename = .ok false) := by
  refine ⟨fun h i => ?_, fun h filename => ?_, fun ty k i => ?_, fun ty k filename => ?_⟩
  · simp only [checkLineNumber, Str.find_eq_none_of_not_infix lnMarker str h]
  · simp only [checkFileName, Str.find_eq_none_of_not_infix flMarker str h]
  · have hn : ¬ lnMarker <:+: (SVFValue.new ty k).getSourceLoc := by
      simp only [SVFValue.getSourceLoc, SVFValue.new]
      decide
    simp only [checkLineNumber, Str.find_eq_none_of_not_infix lnMarker _ hn]
  · have hn : ¬ flMarker <:+: (SVFValue.new ty k).getSourceLoc := by
      simp only [SVFValue.getSourceLoc, SVFValue.new]
      decide
    simp only [checkFileName, Str.find_eq_none_of_not_infix flMarker _ hn]

/-- Witness for C10: a location string that carries a file field but no line field, and
none of the two on the string `{ }`. -/
theorem missing_marker_yields_not_found_witness :
    checkLineNumber ['{', '"', 'f', 'l', '"', ':', '"', 'a', '"', '}'] 7 = .ok false ∧
    checkFileName ['{', ' ', '}'] [] = .ok false :=
  ⟨(missing_marker_yields_not_found ['{', '"', 'f', 'l', '"', ':', '"', 'a', '"', '}']).1
      (by decide) 7,
   (missing_marker_yields_not_found ['{', ' ', '}']).2.1 (by decide) []⟩

end AbstractInterpretation

/-! ## Theorems: branch feasibility -/

namespace AbstractInterpretation

open Predicate

/-- When the bounds prove a relation always false, it holds of no pair of values taken from
the two intervals. -/
theorem alwaysFalse_sound (rel : Relation) (l r : IntervalValue) (a b : Int)
    (ha : l.contains a = true) (hb : r.contains b = true)
    (hf : IntervalValue.alwaysFalse rel l r = true) : rel.holds a b = false := by
  obtain ⟨llb, lub⟩ := l
  obtain ⟨rlb, rub⟩ := r
  cases rel <;> cases llb <;> cases lub <;> cases rlb <;> cases rub <;>
    simp [IntervalValue.contains, IntervalValue.alwaysFalse, Bound.le, Bound.lt,
      Relation.holds] at ha hb hf ⊢ <;> omega

/-- Under a consistent assignment the value of an operand lies in its abstract value. -/
theorem absValue_contains (σ : Nat → Int) (as : AbstractState) (op : Operand)
    (hc : consistent σ as = true) : (absValue as op).contains (evalOperand σ op) = true := by
  cases op with
  | const c => simp [absValue, evalOperand, IntervalValue.ofConst, IntervalValue.contains, Bound.le]
  | var x =>
    simp only [absValue, evalOperand]
    induction as with
    | nil => simp [Map.find, IntervalValue.top, IntervalValue.contains, Bound.le]
    | cons e rest ih =>
      obtain ⟨k, I⟩ := e
      simp only [consistent, List.all_cons, Bool.and_eq_true] at hc
      by_cases hk : k = x
      · subst hk
        simpa [Map.find] using hc.1
      · simp only [Map.find, hk, if_false]
        exact ih hc.2

/-- On unbounded integers the swap-table value holds of the swapped operands exactly when
the key holds of the operands. -/
theorem holdsOnIntegers_swap (p q : Predicate) (a b : Int) (hq : swap p = some q) :
    holdsOnIntegers q b a = holdsOnIntegers p a b := by
  cases p <;> simp [swap, _switch_lhsrhs_predicate, Map.find] at hq <;> subst hq <;>
    simp [holdsOnIntegers, Predicate.isIntPredicate, Predicate.relation, Relation.holds] <;>
    exact eq_comm

/-- On unbounded integers the reverse-table value is the negation of the key. -/
theorem holdsOnIntegers_reverse (p q : Predicate) (a b : Int)
    (hq : reverse p = some q) :
    holdsOnIntegers q a b = (holdsOnIntegers p a b).map (fun v => !v) := by
  cases p <;> simp [reverse, _reverse_predicate, Map.find] at hq <;> subst hq <;>
    simp [holdsOnIntegers, Predicate.isIntPredicate, Predicate.relation, Relation.holds] <;>
    first
      | exact decide_le_eq_not_decide_lt _ _
      | exact decide_lt_eq_not_decide_le _ _

/-- A predicate that holds of two values, negated through the table for the false branch,
is not proved always false on intervals containing the values. -/
theorem feasible_of_holds (p q : Predicate) (succ : Bool) (l r : IntervalValue) (a b : Int)
    (ha : l.contains a = true) (hb : r.contains b = true)
    (hp : holdsOnIntegers p a b = some succ)
    (hq : (if succ then some p else reverse p) = some q) :
    provesAlwaysFalse q l r = false := by
  have hholds : holdsOnIntegers q a b = some true := by
    cases succ with
    | true =>
      simp only [if_true, Option.some.injEq] at hq
      rw [← hq]; exact hp
    | false =>
      simp only [Bool.false_eq_true, if_false] at hq
      rw [holdsOnIntegers_reverse p q a b hq, hp]
      rfl
  unfold provesAlwaysFalse
  unfold holdsOnIntegers at hholds
  cases hrel : q.relation with
  | none => rfl
  | some rel =>
    rw [hrel] at hholds
    by_contra hne
    have hf : IntervalValue.alwaysFalse rel l r = true := by simpa using hne
    have := alwaysFalse_sound rel l r a b ha hb hf
    split at hholds
    · simp [this] at hholds
    · simp at hholds

/-- The evaluation stage of the comparison check: a verdict on a takeable branch is
"feasible". -/
theorem verdict_true_of_holds (p : Predicate) (succ v : Bool) (l r : IntervalValue)
    (a b : Int) (ha : l.contains a = true) (hb : r.contains b = true)
    (hp : holdsOnIntegers p a b = some succ)
    (hv : (match (if succ then some p else reverse p) with
      | none => none
      | some q => some (!provesAlwaysFalse q l r)) = some v) : v = true := by
  cases hq : (if succ then some p else reverse p) with
  | none => rw [hq] at hv; exact absurd hv (by simp)
  | some q =>
    rw [hq] at hv
    simp only [Option.some.injEq] at hv
    rw [← hv, feasible_of_holds p q succ l r a b ha hb hp hq]
    rfl

/-- Whenever the branch check gives a verdict on an edge that some consistent assignment
can take, the verdict is "feasible". -/
theorem isBranchFeasible_verdict_sound (σ : Nat → Int) (e : IntraCFGEdge)
    (as : AbstractState) (v : Bool)
    (hc : consistent σ as = true) (ht : takes σ e = true)
    (hv : isBranchFeasible e as = some v) : v = true := by
  cases e with
  | switchBranch x c =>
    simp only [takes, decide_eq_true_eq] at ht
    simp only [isBranchFeasible, isSwitchBranchFeasible, Option.some.injEq] at hv
    have hx := absValue_contains σ as (.var x) hc
    have hcst : (IntervalValue.ofConst c).contains c = true := by
      simp [IntervalValue.ofConst, IntervalValue.contains, Bound.le]
    simp only [evalOperand, ht] at hx
    rw [← hv]
    by_contra hne
    have hf : IntervalValue.alwaysFalse .eq (absValue as (.var x)) (IntervalValue.ofConst c)
        = true := by simpa using hne
    have := alwaysFalse_sound .eq _ _ c c hx hcst hf
    simp [Relation.holds] at this
  | cmpBranch stmt succ =>
    obtain ⟨p, op0, op1⟩ := stmt
    simp only [takes, decide_eq_true_eq] at ht
    have h0 := absValue_contains σ as op0 hc
    have h1 := absValue_contains σ as op1 hc
    cases op0 with
    | var x =>
      simp only [isBranchFeasible, isCmpBranchFeasible] at hv
      exact verdict_true_of_holds p succ v _ _ _ _ h0 h1 ht hv
    | const c =>
      cases op1 with
      | const d =>
        simp only [isBranchFeasible, isCmpBranchFeasible] at hv
        exact verdict_true_of_holds p succ v _ _ _ _ h0 h1 ht hv
      | var y =>
        simp only [isBranchFeasible, isCmpBranchFeasible] at hv
        cases hs : swap p with
        | none => rw [hs] at hv; exact absurd hv (by simp)
        | some q =>
          rw [hs] at hv
          simp only [Option.map_some'] at hv
          have hsw := holdsOnIntegers_swap p q (evalOperand σ (.const c))
            (evalOperand σ (.var y)) hs
          exact verdict_true_of_holds q succ v _ _ _ _ h1 h0 (hsw.trans ht) hv

/-- C7: for `x ICMP_SGT 0` in a state that stores the interval `[1, 10]` for `x`, the
comparison check reports the true branch feasible and the false branch, evaluated with
the reverse-table entry `ICMP_SLE` of `ICMP_SGT`, infeasible. -/
theorem isCmpBranchFeasible_sgt_example (x : Nat) (as : AbstractState)
    (hx : Map.find as x = some ⟨.num 1, .num 10⟩) :
    isCmpBranchFeasible ⟨ICMP_SGT, .var x, .const 0⟩ true as = some true ∧
    reverse ICMP_SGT = some ICMP_SLE ∧
    isCmpBranchFeasible ⟨ICMP_SGT, .var x, .const 0⟩ false as = some false := by
  refine ⟨?_, by decide, ?_⟩
  · simp [isCmpBranchFeasible, absValue, hx, provesAlwaysFalse, Predicate.relation,
      IntervalValue.alwaysFalse, IntervalValue.ofConst, Bound.le]
  · have hr : reverse ICMP_SGT = some ICMP_SLE := by decide
    simp [isCmpBranchFeasible, absValue, hx, hr, provesAlwaysFalse, Predicate.relation,
      IntervalValue.alwaysFalse, IntervalValue.ofConst, Bound.lt]

/-- Witness for C7: the state that holds only `x = 1` with the interval `[1, 10]`. -/
theorem isCmpBranchFeasible_sgt_example_witness :
    isCmpBranchFeasible ⟨ICMP_SGT, .var 1, .const 0⟩ true [(1, ⟨.num 1, .num 10⟩)]
      = some true ∧
    reverse ICMP_SGT = some ICMP_SLE ∧
    isCmpBranchFeasible ⟨ICMP_SGT, .var 1, .const 0⟩ false [(1, ⟨.num 1, .num 10⟩)]
      = some false :=
  isCmpBranchFeasible_sgt_example 1 [(1, ⟨.num 1, .num 10⟩)] (by decide)

end AbstractInterpretation

/-! ## Theorems: reading the line and the file name -/

namespace Str

/-- A found needle lies inside the string. -/
theorem find_add_length_le (needle : List Char) :
    ∀ (str : List Char) (k : Nat), find str needle = some k → k + needle.length ≤ str.length := by
  intro str
  induction str with
  | nil =>
    intro k h
    simp only [find] at h
    split at h
    · rename_i hn
      simp only [Option.some.injEq] at h
      subst hn; subst h; simp
    · exact absurd h (by simp)
  | cons c cs ih =>
    intro k h
    simp only [find] at h
    split at h
    · rename_i hp
      simp only [Option.some.injEq] at h
      subst h
      have := (List.isPrefixOf_iff_prefix.mp hp).length_le
      simpa using this
    · cases hf : find cs needle with
      | none => rw [hf] at h; exact absurd h (by simp)
      | some j =>
        rw [hf] at h
        simp only [Option.map_some', Option.some.injEq] at h
        have := ih j hf
        simp only [List.length_cons]
        omega

/-- The scanning loop moves forward by at most the number of characters it is given. -/
theorem le_advanceLoop (p : Char → Bool) :
    ∀ (l : List Char) (pos : Nat), pos ≤ advanceLoop p l pos ∧ advanceLoop p l pos ≤ pos + l.length := by
  intro l
  induction l with
  | nil => intro pos; simp [advanceLoop]
  | cons c rest ih =>
    intro pos
    simp only [advanceLoop]
    split
    · have := ih (pos + 1)
      simp only [List.length_cons]
      omega
    · simp

/-- The scanning loop started inside the string ends inside the string. -/
theorem advanceWhile_bounds (p : Char → Bool) (str : List Char) (pos : Nat)
    (h : pos ≤ str.length) :
    pos ≤ advanceWhile p str pos ∧ advanceWhile p str pos ≤ str.length := by
  have := le_advanceLoop p (str.drop pos) pos
  simp only [List.length_drop] at this
  unfold advanceWhile
  omega

/-- The search returns the position of the first occurrence of the needle. -/
theorem find_first_occurrence (needle tail : List Char) :
    ∀ pre : List Char,
      (∀ k, k < pre.length → ¬ needle <+: (pre ++ needle ++ tail).drop k) →
      find (pre ++ needle ++ tail) needle = some pre.length := by
  intro pre
  induction pre with
  | nil =>
    intro _
    cases hn : needle ++ tail with
    | nil =>
      obtain ⟨h1, h2⟩ := List.append_eq_nil.mp hn
      subst h1
      subst h2
      simp [find]
    | cons c cs =>
      have hp : needle.isPrefixOf (c :: cs) = true := by
        rw [← hn]
        exact List.isPrefixOf_iff_prefix.mpr (List.prefix_append _ _)
      simp [find, hn, hp]
  | cons c pre ih =>
    intro h
    have h0 := h 0 (by simp)
    simp only [List.drop_zero] at h0
    have hnp : needle.isPrefixOf (c :: (pre ++ needle ++ tail)) = false := by
      cases hb : needle.isPrefixOf (c :: (pre ++ needle ++ tail)) with
      | false => rfl
      | true => exact absurd (List.isPrefixOf_iff_prefix.mp hb) (by simpa using h0)
    have ih2 := ih (fun k hk => by
      have := h (k + 1) (by simp only [List.length_cons]; omega)
      simpa using this)
    show find (c :: (pre ++ needle ++ tail)) needle = some (pre.length + 1)
    simp only [find, hnp, Bool.false_eq_true, if_false, ih2, Option.map_some']

/-- The scanning loop passes a run of accepted characters that is followed by the end of
the string or by a rejected character, and stops there. -/
theorem advanceLoop_run (p : Char → Bool) (rest : List Char)
    (hstop : ∀ c, rest.head? = some c → p c = false) :
    ∀ (run : List Char) (pos : Nat), (∀ c ∈ run, p c = true) →
      advanceLoop p (run ++ rest) pos = pos + run.length := by
  intro run
  induction run with
  | nil =>
    intro pos _
    cases rest with
    | nil => simp [advanceLoop]
    | cons c cs =>
      have := hstop c (by simp)
      simp [advanceLoop, this]
  | cons c cs ih =>
    intro pos h
    have hc : p c = true := h c (by simp)
    have := ih (pos + 1) (fun d hd => h d (by simp [hd]))
    show advanceLoop p (c :: (cs ++ rest)) pos = pos + (cs.length + 1)
    simp only [advanceLoop, hc, if_true, this]
    omega

/-- A decimal digit is not white space. -/
theorem isdigit_not_isspace (c : Char) (hc : isdigit c = true) : isspace c = false := by
  cases hs : isspace c with
  | false => rfl
  | true =>
    simp only [isspace, Bool.or_eq_true, decide_eq_true_eq] at hs
    rcases hs with ((((h | h) | h) | h) | h) | h <;> subst h <;> exact absurd hc (by decide)

/-- The longest accepted run of a list of accepted characters is the list. -/
theorem takeWhile_eq_self (p : Char → Bool) :
    ∀ l : List Char, (∀ c ∈ l, p c = true) → l.takeWhile p = l := by
  intro l
  induction l with
  | nil => intro _; rfl
  | cons c cs ih =>
    intro h
    have hc : p c = true := h c (by simp)
    simp only [List.takeWhile, hc]
    rw [ih (fun d hd => h d (by simp [hd]))]

/-- On a non-empty run of decimal digits whose value fits an `int`, `std::stoi` returns the
value. -/
theorem stoi_digits (digits : List Char) (hne : digits ≠ [])
    (hd : ∀ c ∈ digits, isdigit c = true)
    (hfit : (decimalValue digits : Int) ≤ 2 ^ 31 - 1) :
    stoi digits = .ok (decimalValue digits : Int) := by
  cases digits with
  | nil => exact absurd rfl hne
  | cons c cs =>
    have hc : isdigit c = true := hd c (by simp)
    have hsp : isspace c = false := isdigit_not_isspace c hc
    have hminus : c ≠ '-' := by
      intro h; subst h; exact absurd hc (by decide)
    have hplus : c ≠ '+' := by
      intro h; subst h; exact absurd hc (by decide)
    have hdrop : (c :: cs).dropWhile isspace = c :: cs := by
      simp [List.dropWhile, hsp]
    have htake : (c :: cs).takeWhile isdigit = c :: cs := takeWhile_eq_self isdigit _ hd
    have hm : (match c :: cs with
        | '-' :: r => (true, r)
        | '+' :: r => (false, r)
        | _ => (false, c :: cs)) = (false, c :: cs) := by
      split
      · rename_i heq
        simp only [List.cons.injEq] at heq
        exact absurd heq.1 hminus
      · rename_i heq
        simp only [List.cons.injEq] at heq
        exact absurd heq.1 hplus
      · rfl
    have hnn : (0 : Int) ≤ (decimalValue (c :: cs) : Int) := Int.ofNat_nonneg _
    unfold stoi
    simp only [hdrop, hm, htake]
    have h2 : decimalValue (c :: cs) ≤ 2147483647 := by
      norm_num at hfit
      exact hfit
    simp
    exact ⟨by omega, h2⟩

end Str

namespace AbstractInterpretation

/-- Dropping a prefix and the marker leaves what follows the marker. -/
theorem drop_after_marker (pre marker tail : List Char) (n : Nat) (hn : marker.length = n) :
    (pre ++ marker ++ tail).drop (pre.length + n) = tail := by
  subst hn
  rw [← List.length_append, List.drop_left]

/-- C11: on a location string whose line marker is followed by no digit, `checkLineNumber`
ends in the exception `std::invalid_argument` of `std::stoi`, and on one whose digits
exceed the range of `int`, in `std::out_of_range`; it returns no boolean there. -/
theorem checkLineNumber_throws_on_malformed_number :
    checkLineNumber
      ['{', ' ', '"', 'l', 'n', '"', ':', ' ', 'n', 'u', 'l', 'l', ' ', '}'] 3
      = .error .invalid_argument ∧
    checkLineNumber ['"', 'l', 'n', '"', ':'] 3 = .error .invalid_argument ∧
    checkLineNumber
      ['"', 'l', 'n', '"', ':', ' ', '9', '9', '9', '9', '9', '9', '9', '9', '9', '9', '9'] 3
      = .error .out_of_range ∧
    checkLineNumber
      ['"', 'l', 'n', '"', ':', '2', '1', '4', '7', '4', '8', '3', '6', '4', '8'] 3
      = .error .out_of_range := by
  decide

/-- C12: `checkFileName` returns a boolean on every location string and file name: when
the marker is found, the positions it computes lie inside the string in increasing order,
so `substr` does not throw; this includes a string that ends with the marker and a file
name without closing quote. -/
theorem checkFileName_total (str filename : List Char) :
    (∃ b, checkFileName str filename = .ok b) ∧
    (match Str.find str flMarker with
      | none => True
      | some found =>
        found + 5 ≤ Str.advanceWhile (fun c => c = ' ' || c = '"') str (found + 5) ∧
        Str.advanceWhile (fun c => c = ' ' || c = '"') str (found + 5)
          ≤ Str.advanceWhile (fun c => c != '"') str
              (Str.advanceWhile (fun c => c = ' ' || c = '"') str (found + 5)) ∧
        Str.advanceWhile (fun c => c != '"') str
              (Str.advanceWhile (fun c => c = ' ' || c = '"') str (found + 5))
          ≤ str.length) ∧
    checkFileName ['{', '"', 'f', 'l', '"', ':'] ['a'] = .ok false ∧
    checkFileName ['"', 'f', 'l', '"', ':', ' ', '"', 'a', '.', 'c'] ['a', '.', 'c']
      = .ok true := by
  refine ⟨?_, ?_, by decide, by decide⟩
  · unfold checkFileName
    cases hf : Str.find str flMarker with
    | none => exact ⟨false, rfl⟩
    | some found =>
      have h1 : found + 5 ≤ str.length := Str.find_add_length_le flMarker str found hf
      have h2 := Str.advanceWhile_bounds (fun c => c = ' ' || c = '"') str (found + 5) h1
      simp only [Str.substr]
      rw [if_neg (by omega)]
      exact ⟨_, rfl⟩
  · cases hf : Str.find str flMarker with
    | none => trivial
    | some found =>
      have h1 : found + 5 ≤ str.length := Str.find_add_length_le flMarker str found hf
      have h2 := Str.advanceWhile_bounds (fun c => c = ' ' || c = '"') str (found + 5) h1
      have h3 := Str.advanceWhile_bounds (fun c => c != '"') str _ h2.2
      exact ⟨h2.1, h3.1, h3.2⟩

/-- C13: on a location string whose first occurrence of the line marker is followed by
spaces and then by a non-empty maximal run of decimal digits whose value `N` fits an
`int`, `checkLineNumber(str, i)` returns whether `N = i`, whatever precedes the marker and
whatever follows the digits. -/
theorem checkLineNumber_reads_line (pre spaces digits rest : List Char) (i : Int)
    (hfirst : ∀ k, k < pre.length →
      ¬ lnMarker <+: (pre ++ lnMarker ++ (spaces ++ (digits ++ rest))).drop k)
    (hsp : ∀ c ∈ spaces, c = ' ')
    (hne : digits ≠ [])
    (hd : ∀ c ∈ digits, Str.isdigit c = true)
    (hmax : ∀ c, rest.head? = some c → Str.isdigit c = false)
    (hfit : (Str.decimalValue digits : Int) ≤ 2 ^ 31 - 1) :
    checkLineNumber (pre ++ lnMarker ++ (spaces ++ (digits ++ rest))) i
      = .ok (decide ((Str.decimalValue digits : Int) = i)) := by
  have hfind := Str.find_first_occurrence lnMarker (spaces ++ (digits ++ rest)) pre hfirst
  have hstop1 : ∀ c, (digits ++ rest).head? = some c → (decide (c = ' ')) = false := by
    intro c hc
    cases digits with
    | nil => exact absurd rfl hne
    | cons d ds =>
      simp only [List.cons_append, List.head?_cons, Option.some.injEq] at hc
      subst hc
      have hdig := hd d (by simp)
      cases hsp2 : decide (d = ' ') with
      | false => rfl
      | true =>
        have : d = ' ' := of_decide_eq_true hsp2
        subst this
        exact absurd hdig (by decide)
  have hpos1 : Str.advanceWhile (fun c => decide (c = ' '))
      (pre ++ lnMarker ++ (spaces ++ (digits ++ rest))) (pre.length + 5)
      = pre.length + 5 + spaces.length := by
    unfold Str.advanceWhile
    rw [drop_after_marker pre lnMarker _ 5 rfl]
    exact Str.advanceLoop_run _ (digits ++ rest) hstop1 spaces (pre.length + 5)
      (fun c hc => by simp [hsp c hc])
  have hdrop2 : (pre ++ lnMarker ++ (spaces ++ (digits ++ rest))).drop
      (pre.length + 5 + spaces.length) = digits ++ rest := by
    have : pre ++ lnMarker ++ (spaces ++ (digits ++ rest))
        = (pre ++ lnMarker ++ spaces) ++ (digits ++ rest) := by simp
    rw [this]
    have hl : pre.length + 5 + spaces.length = (pre ++ lnMarker ++ spaces).length := by
      simp only [List.length_append, lnMarker, List.length_cons, List.length_nil]
    rw [hl, List.drop_left]
  have hpos2 : Str.advanceWhile Str.isdigit
      (pre ++ lnMarker ++ (spaces ++ (digits ++ rest))) (pre.length + 5 + spaces.length)
      = pre.length + 5 + spaces.length + digits.length := by
    unfold Str.advanceWhile
    rw [hdrop2]
    exact Str.advanceLoop_run _ rest hmax digits _ hd
  have hlen : pre.length + 5 + spaces.length
      ≤ (pre ++ lnMarker ++ (spaces ++ (digits ++ rest))).length := by
    simp only [List.length_append, lnMarker, List.length_cons, List.length_nil]
    omega
  unfold checkLineNumber
  simp only [hfind, hpos1, hpos2, Str.substr]
  rw [if_neg (by omega), hdrop2]
  have htake : (digits ++ rest).take
      (pre.length + 5 + spaces.length + digits.length - (pre.length + 5 + spaces.length))
      = digits := by
    rw [Nat.add_sub_cancel_left, List.take_left]
  simp only [htake, Str.stoi_digits digits hne hd hfit]

/-- Witness for C13: the location `{ "ln": 12, "fl": "a.c" }` and line 12. -/
theorem checkLineNumber_reads_line_witness :
    checkLineNumber (['{', ' '] ++ lnMarker ++ ([' '] ++ (['1', '2'] ++
      [',', ' ', '"', 'f', 'l', '"', ':', ' ', '"', 'a', '.', 'c', '"', ' ', '}']))) 12
      = .ok (decide ((Str.decimalValue ['1', '2'] : Int) = 12)) :=
  checkLineNumber_reads_line ['{', ' '] [' '] ['1', '2']
    [',', ' ', '"', 'f', 'l', '"', ':', ' ', '"', 'a', '.', 'c', '"', ' ', '}'] 12
    (by decide) (by decide) (by decide) (by decide)
    (fun c h => by
      simp only [List.head?_cons, Option.some.injEq] at h
      subst h
      decide)
    (by decide)

/-- C14, counterexample: in `{ "fl": " a.c" }` the name between the quotes is ` a.c`, yet
`checkFileName` answers false for ` a.c` and true for `a.c`; in `{ "fl": "", "ln": 3 }`
the name between the quotes is empty, yet `checkFileName` answers false for the empty
name. -/
theorem checkFileName_misreads_leading_space_and_empty_name :
    ['{', ' ', '"', 'f', 'l', '"', ':', ' ', '"', ' ', 'a', '.', 'c', '"', ' ', '}']
      = ['{', ' '] ++ flMarker ++ ([' '] ++ ('"' :: ([' ', 'a', '.', 'c'] ++ '"' :: [' ', '}'])))
      ∧
    checkFileName
      ['{', ' ', '"', 'f', 'l', '"', ':', ' ', '"', ' ', 'a', '.', 'c', '"', ' ', '}']
      [' ', 'a', '.', 'c'] = .ok false ∧
    checkFileName
      ['{', ' ', '"', 'f', 'l', '"', ':', ' ', '"', ' ', 'a', '.', 'c', '"', ' ', '}']
      ['a', '.', 'c'] = .ok true ∧
    ['{', ' ', '"', 'f', 'l', '"', ':', ' ', '"', '"', ',', ' ', '"', 'l', 'n', '"', ':',
        ' ', '3', ' ', '}']
      = ['{', ' '] ++ flMarker ++ ([' '] ++ ('"' :: ([] ++ '"' ::
          [',', ' ', '"', 'l', 'n', '"', ':', ' ', '3', ' ', '}']))) ∧
    checkFileName
      ['{', ' ', '"', 'f', 'l', '"', ':', ' ', '"', '"', ',', ' ', '"', 'l', 'n', '"', ':',
        ' ', '3', ' ', '}'] [] = .ok false := by
  decide

/-- C14, amended: on a location string whose first occurrence of the file marker is
followed by spaces, an opening double quote, a non-empty name without double quote that
does not begin with a space, and a closing double quote, `checkFileName(str, filename)`
returns whether `filename` is that name. -/
theorem checkFileName_reads_name (pre spaces name rest filename : List Char)
    (hfirst : ∀ k, k < pre.length →
      ¬ flMarker <+: (pre ++ flMarker ++ (spaces ++ ('"' :: (name ++ '"' :: rest)))).drop k)
    (hsp : ∀ c ∈ spaces, c = ' ')
    (hq : ∀ c ∈ name, c ≠ '"')
    (hhead : ∀ c, name.head? = some c → c ≠ ' ')
    (hne : name ≠ []) :
    checkFileName (pre ++ flMarker ++ (spaces ++ ('"' :: (name ++ '"' :: rest)))) filename
      = .ok (decide (name = filename)) := by
  have hfind := Str.find_first_occurrence flMarker
    (spaces ++ ('"' :: (name ++ '"' :: rest))) pre hfirst
  have hstr : pre ++ flMarker ++ (spaces ++ ('"' :: (name ++ '"' :: rest)))
      = pre ++ flMarker ++ ((spaces ++ ['"']) ++ (name ++ '"' :: rest)) := by simp
  have hstop1 : ∀ c, (name ++ '"' :: rest).head? = some c →
      (decide (c = ' ') || decide (c = '"')) = false := by
    intro c hc
    cases name with
    | nil => exact absurd rfl hne
    | cons d ds =>
      simp only [List.cons_append, List.head?_cons, Option.some.injEq] at hc
      subst hc
      have h1 : d ≠ ' ' := hhead d (by simp)
      have h2 : d ≠ '"' := hq d (by simp)
      simp [h1, h2]
  have hpos1 : Str.advanceWhile (fun c => decide (c = ' ') || decide (c = '"'))
      (pre ++ flMarker ++ (spaces ++ ('"' :: (name ++ '"' :: rest)))) (pre.length + 5)
      = pre.length + 5 + (spaces.length + 1) := by
    unfold Str.advanceWhile
    rw [hstr, drop_after_marker pre flMarker _ 5 rfl]
    have := Str.advanceLoop_run _ (name ++ '"' :: rest) hstop1 (spaces ++ ['"'])
      (pre.length + 5) (fun c hc => by
        rcases List.mem_append.mp hc with h | h
        · simp [hsp c h]
        · simp only [List.mem_singleton] at h
          simp [h])
    simpa using this
  have hdrop2 : (pre ++ flMarker ++ (spaces ++ ('"' :: (name ++ '"' :: rest)))).drop
      (pre.length + 5 + (spaces.length + 1)) = name ++ '"' :: rest := by
    have : pre ++ flMarker ++ (spaces ++ ('"' :: (name ++ '"' :: rest)))
        = (pre ++ flMarker ++ (spaces ++ ['"'])) ++ (name ++ '"' :: rest) := by simp
    rw [this]
    have hl : pre.length + 5 + (spaces.length + 1)
        = (pre ++ flMarker ++ (spaces ++ ['"'])).length := by
      simp only [List.length_append, flMarker, List.length_cons, List.length_nil]
    rw [hl, List.drop_left]
  have hstop2 : ∀ c, ('"' :: rest).head? = some c → (c != '"') = false := by
    intro c hc
    simp only [List.head?_cons, Option.some.injEq] at hc
    subst hc
    rfl
  have hpos2 : Str.advanceWhile (fun c => c != '"')
      (pre ++ flMarker ++ (spaces ++ ('"' :: (name ++ '"' :: rest))))
      (pre.length + 5 + (spaces.length + 1))
      = pre.length + 5 + (spaces.length + 1) + name.length := by
    unfold Str.advanceWhile
    rw [hdrop2]
    exact Str.advanceLoop_run _ ('"' :: rest) hstop2 name _
      (fun c hc => by simp [hq c hc])
  have hlen : pre.length + 5 + (spaces.length + 1)
      ≤ (pre ++ flMarker ++ (spaces ++ ('"' :: (name ++ '"' :: rest)))).length := by
    simp only [List.length_append, flMarker, List.length_cons, List.length_nil]
    omega
  unfold checkFileName
  simp only [hfind, hpos1, hpos2, Str.substr]
  rw [if_neg (by omega), hdrop2]
  have htake : (name ++ '"' :: rest).take
      (pre.length + 5 + (spaces.length + 1) + name.length
        - (pre.length + 5 + (spaces.length + 1))) = name := by
    rw [Nat.add_sub_cancel_left, List.take_left]
  simp only [htake]

/-- Witness for C14: the location `{ "fl": "a.c", "ln": 3 }`. -/
theorem checkFileName_reads_name_witness :
    checkFileName (['{', ' '] ++ flMarker ++ ([' '] ++ ('"' :: (['a', '.', 'c'] ++ '"' ::
      [',', ' ', '"', 'l', 'n', '"', ':', ' ', '3', ' ', '}'])))) ['a', '.', 'c']
      = .ok (decide (['a', '.', 'c'] = ['a', '.', 'c'])) :=
  checkFileName_reads_name ['{', ' '] [' '] ['a', '.', 'c']
    [',', ' ', '"', 'l', 'n', '"', ':', ' ', '3', ' ', '}'] ['a', '.', 'c']
    (by decide) (by decide) (by decide)
    (fun c h => by
      simp only [List.head?_cons, Option.some.injEq] at h
      subst h
      decide)
    (by decide)

end AbstractInterpretation

/-! ## Theorems: the program assignment graph -/

namespace Map

variable {K V : Type} [DecidableEq K]

/-- Assigning under a key that has no entry adds the key at the end. -/
theorem keys_assign_of_find_none (m : Map K V) (key : K) (v : V) (h : find m key = none) :
    keys (assign m key v) = keys m ++ [key] := by
  induction m with
  | nil => rfl
  | cons e rest ih =>
    obtain ⟨k, w⟩ := e
    by_cases hk : k = key
    · simp [find, hk] at h
    · simp only [find, hk, if_false] at h
      simp only [assign, hk, if_false, keys, List.map_cons, List.cons_append]
      have := ih h
      simp only [keys] at this
      rw [this]

/-- An entry appended under a key that has none is found. -/
theorem find_append_of_not_mem (m : Map K V) (key : K) (v : V) (h : key ∉ keys m) :
    find (m ++ [(key, v)]) key = some v := by
  induction m with
  | nil => simp [find]
  | cons e rest ih =>
    obtain ⟨k, w⟩ := e
    simp only [keys, List.map_cons, List.mem_cons, not_or] at h
    have hk : ¬ k = key := fun hc => h.1 hc.symm
    simp only [List.cons_append, find, hk, if_false]
    exact ih h.2

/-- Appending entries does not change what is found under a key of the map. -/
theorem find_append_of_mem (m l : Map K V) (key : K) (h : key ∈ keys m) :
    find (m ++ l) key = find m key := by
  induction m with
  | nil => simp [keys] at h
  | cons e rest ih =>
    obtain ⟨k, w⟩ := e
    by_cases hk : k = key
    · simp [find, hk]
    · simp only [keys, List.map_cons, List.mem_cons] at h
      have h2 : key ∈ keys rest := by
        rcases h with h | h
        · exact absurd h.symm hk
        · exact h
      simp only [List.cons_append, find, hk, if_false]
      exact ih h2

/-- A change in place under `k` changes what is found under `k` and nothing else. -/
theorem find_modify (m : Map K V) (k key : K) (g : V → V) :
    find (modify m k g) key = if key = k then (find m key).map g else find m key := by
  induction m with
  | nil => simp [find, modify]
  | cons e rest ih =>
    obtain ⟨k1, w⟩ := e
    by_cases h1 : k1 = k
    · by_cases h2 : k1 = key
      · subst h1; subst h2
        simp [find, modify]
      · have h3 : ¬ key = k := fun hc => h2 (h1.trans hc.symm)
        simp only [modify, h1, if_true, find, h3, if_false] at ih ⊢
        have h4 : ¬ k = key := fun hc => h3 hc.symm
        simp only [h4, if_false]
        exact ih
    · by_cases h2 : k1 = key
      · have h3 : ¬ key = k := fun hc => h1 (h2.trans hc)
        simp only [modify, h1, if_false, find, h2, if_true, h3]
      · simp only [modify, h1, if_false, find, h2]
        exact ih

/-- What is assigned under a key is found under it. -/
theorem find_assign_self (m : Map K V) (key : K) (v : V) : find (assign m key v) key = some v := by
  induction m with
  | nil => simp [assign, find]
  | cons e rest ih =>
    obtain ⟨k, w⟩ := e
    by_cases hk : k = key
    · simp [assign, find, hk]
    · simp only [assign, hk, if_false, find]
      exact ih

/-- A change in place keeps the keys. -/
theorem keys_modify {K V : Type} [DecidableEq K] (m : Map K V) (k : K) (g : V → V) :
    Map.keys (Map.modify m k g) = Map.keys m := by
  induction m with
  | nil => rfl
  | cons e rest ih =>
    obtain ⟨k1, w⟩ := e
    simp only [Map.modify, Map.keys, List.map_cons] at ih ⊢
    rw [ih]

/-- A key of the map has an entry. -/
theorem find_isSome_of_mem {K V : Type} [DecidableEq K] (m : Map K V) (key : K)
    (h : key ∈ Map.keys m) : ∃ v, Map.find m key = some v := by
  cases hf : Map.find m key with
  | none => exact absurd h ((Map.find_eq_none_iff m key).mp hf)
  | some v => exact ⟨v, rfl⟩

end Map

namespace SVFIR

/-- Distinct keys with one base whose offsets lie in `[0, L)` are at most `L`. -/
theorem filter_base_length_le (L base : Nat) (l : List (NodeID × APOffset))
    (hnd : l.Nodup) (hr : ∀ k ∈ l, k.1 = base → 0 ≤ k.2 ∧ k.2 < (L : Int)) :
    (l.filter (fun k => decide (k.1 = base))).length ≤ L := by
  have hnd2 : (l.filter (fun k => decide (k.1 = base))).Nodup := hnd.filter _
  have hinj : ((l.filter (fun k => decide (k.1 = base))).map (fun k => k.2.toNat)).Nodup := by
    refine List.Nodup.map_on ?_ hnd2
    intro a ha b hb hab
    have ha' := List.mem_filter.mp ha
    have hb' := List.mem_filter.mp hb
    have ha1 : a.1 = base := of_decide_eq_true ha'.2
    have hb1 : b.1 = base := of_decide_eq_true hb'.2
    have ha2 := hr a ha'.1 ha1
    have hb2 := hr b hb'.1 hb1
    have h2 : a.2 = b.2 := by
      have := congrArg (fun n : Nat => (n : Int)) hab
      simp only [Int.toNat_of_nonneg ha2.1, Int.toNat_of_nonneg hb2.1] at this
      exact this
    exact Prod.ext (ha1.trans hb1.symm) h2
  have hsub : (l.filter (fun k => decide (k.1 = base))).map (fun k => k.2.toNat)
      ⊆ List.range L := by
    intro n hn
    obtain ⟨k, hk, rfl⟩ := List.mem_map.mp hn
    have hk' := List.mem_filter.mp hk
    obtain ⟨h1, h2⟩ := hr k hk'.1 (of_decide_eq_true hk'.2)
    simp only [List.mem_range]
    exact (Int.toNat_lt h1).mpr h2
  have := (hinj.subperm hsub).length_le
  simpa using this

/-- One call of `getGepObjVar` returns and keeps the keys of `GepObjVarMap` distinct and the
offsets recorded for the object inside `[0, limit)`. -/
theorem getGepObjVar_keeps_keys_reduced (ext : Externals) (obj : MemObj) (pag : SVFIR)
    (offset : APOffset)
    (hmod : ∀ off, 0 ≤ ext.getModulusOffset obj off ∧
      ext.getModulusOffset obj off < (obj.maxFieldOffsetLimit : Int))
    (hnd : (Map.keys pag.GepObjVarMap).Nodup)
    (hr : ∀ k ∈ Map.keys pag.GepObjVarMap, k.1 = obj.id →
      0 ≤ k.2 ∧ k.2 < (obj.maxFieldOffsetLimit : Int)) :
    ∃ r, getGepObjVar ext pag obj offset = .ok r ∧
      (Map.keys r.2.GepObjVarMap).Nodup ∧
      ∀ k ∈ Map.keys r.2.GepObjVarMap, k.1 = obj.id →
        0 ≤ k.2 ∧ k.2 < (obj.maxFieldOffsetLimit : Int) := by
  unfold getGepObjVar
  by_cases hfi : obj.fieldInsensitive = true
  · simp only [hfi, if_true]
    exact ⟨_, rfl, hnd, hr⟩
  · simp only [hfi, Bool.false_eq_true, if_false]
    by_cases hff : (ext.FirstFieldEqBase && decide (ext.getModulusOffset obj offset = 0)) = true
    · simp only [hff, if_true]
      exact ⟨_, rfl, hnd, hr⟩
    · simp only [hff, Bool.false_eq_true, if_false]
      cases hfind : Map.find pag.GepObjVarMap (obj.id, ext.getModulusOffset obj offset) with
      | some id => exact ⟨_, rfl, hnd, hr⟩
      | none =>
        have hcount : Map.count pag.GepObjVarMap (obj.id, ext.getModulusOffset obj offset) = 0 := by
          simp [Map.count, hfind]
        have hnotin := (Map.find_eq_none_iff _ _).mp hfind
        have hkeys := Map.keys_assign_of_find_none pag.GepObjVarMap
          (obj.id, ext.getModulusOffset obj offset)
          (ext.allocateGepObjectId obj.id offset ext.MaxFieldLimit pag.nodeIDAllocator).1 hfind
        simp only [addGepObjNode, hcount, ne_eq, not_true_eq_false, if_false, addObjNode]
        refine ⟨_, rfl, ?_, ?_⟩
        · simp only [hkeys]
          exact List.Nodup.append hnd (List.nodup_singleton _) (by
            intro a ha hb
            simp only [List.mem_singleton] at hb
            subst hb
            exact hnotin ha)
        · intro k hk hbase
          simp only [hkeys, List.mem_append, List.mem_singleton] at hk
          rcases hk with hk | hk
          · exact hr k hk hbase
          · subst hk
            exact hmod offset

/-- Every address of a list is below the bound computed from it. -/
theorem lt_freshAddress_aux (l : List StmtId) :
    ∀ k ∈ l, k < l.foldr (fun k acc => max (k + 1) acc) 0 := by
  induction l with
  | nil => intro k h; simp at h
  | cons a rest ih =>
    intro k h
    simp only [List.foldr_cons]
    rcases List.mem_cons.mp h with h | h
    · subst h
      exact lt_max_iff.mpr (Or.inl (Nat.lt_succ_self _))
    · exact lt_max_iff.mpr (Or.inr (ih k h))

/-- The fresh address is not in use. -/
theorem freshAddress_not_mem (pag : SVFIR) : pag.freshAddress ∉ Map.keys pag.stmtObjects := by
  intro h
  have := lt_freshAddress_aux _ _ h
  exact absurd this (lt_irrefl _)

/-- The shared body of the two Gep adders, when there is no Gep edge from `src` to `dst` yet:
a new statement with the given flag is created, recorded and made an incoming edge of
`dst`. -/
theorem addGepStmtWith_new (varfld : Bool) (pag : SVFIR) (src dst : NodeID) (ap : AccessPath)
    (srcNode dstNode : SVFVar)
    (hsrc : Map.find pag.IDToNodeMap src = some srcNode)
    (hdst : Map.find pag.IDToNodeMap dst = some dstNode)
    (hno : pag.hasNonlabeledEdge src dst .Gep = false) :
    ∃ e pag', addGepStmtWith varfld pag src dst ap = .ok (some e, pag') ∧
      pag.stmtAt e = none ∧
      pag'.stmtAt e = some (SVFStmt.newGepStmt src dst ap varfld) ∧
      e ∈ pag'.KindToSVFStmtSetMap ∧
      ∃ dstNode', Map.find pag'.IDToNodeMap dst = some dstNode' ∧ e ∈ dstNode'.InEdges ∧
        (varfld = true → pag'.hasIncomingVariantGepEdge dstNode' = true) := by
  have hfresh := freshAddress_not_mem pag
  have hstmt : Map.find (pag.stmtObjects ++ [(pag.freshAddress, SVFStmt.newGepStmt src dst ap varfld)])
      pag.freshAddress = some (SVFStmt.newGepStmt src dst ap varfld) :=
    Map.find_append_of_not_mem _ _ _ hfresh
  refine ⟨pag.freshAddress,
    (((pag.newStmt (SVFStmt.newGepStmt src dst ap varfld)).2.addToStmt2TypeMap
      pag.freshAddress).addEdge src dst pag.freshAddress), ?_, ?_, ?_, ?_, ?_⟩
  · simp only [addGepStmtWith, getGNode, hsrc, hdst, hno, Bool.false_eq_true, if_false]
    rfl
  · exact (Map.find_eq_none_iff _ _).mpr hfresh
  · exact hstmt
  · simp [newStmt, addToStmt2TypeMap, addEdge]
  · have hfind : Map.find (Map.modify (Map.modify pag.IDToNodeMap src
          (fun node => { node with OutEdges := node.OutEdges ++ [pag.freshAddress] })) dst
          (fun node => { node with InEdges := node.InEdges ++ [pag.freshAddress] })) dst
        = some { (if dst = src then
              { dstNode with OutEdges := dstNode.OutEdges ++ [pag.freshAddress] }
            else dstNode) with
            InEdges := (if dst = src then
              { dstNode with OutEdges := dstNode.OutEdges ++ [pag.freshAddress] }
            else dstNode).InEdges ++ [pag.freshAddress] } := by
      rw [Map.find_modify, if_pos rfl, Map.find_modify, hdst]
      by_cases h : dst = src <;> simp [h]
    refine ⟨_, hfind, by simp, ?_⟩
    intro hv
    subst hv
    simp only [hasIncomingVariantGepEdge, List.any_append, List.any_cons, List.any_nil,
      Bool.or_false, Bool.or_eq_true]
    right
    simp only [stmtAt, newStmt, addToStmt2TypeMap, addEdge, hstmt]
    rfl

/-- Calls of `addPhiStmt` for a result that has its Phi statement: each returns null and
appends its operand and predecessor to the statement. -/
theorem addPhiStmtCalls_existing (res : NodeID) (e : StmtId) :
    ∀ (rest : List (NodeID × ICFGNode)) (pag : SVFIR) (phi : SVFStmt),
      Map.find pag.phiNodeMap res = some e →
      pag.stmtAt e = some phi →
      res ∈ Map.keys pag.IDToNodeMap →
      (∀ p ∈ rest, p.1 ∈ Map.keys pag.IDToNodeMap) →
      ∃ pag' phi', addPhiStmtCalls res pag rest = .ok (rest.map (fun _ => none), pag') ∧
        Map.find pag'.phiNodeMap res = some e ∧
        pag'.stmtAt e = some phi' ∧
        phi'.kind = phi.kind ∧ phi'.dst = phi.dst ∧
        phi'.opVars = phi.opVars ++ rest.map Prod.fst ∧
        phi'.opICFGNodes = phi.opICFGNodes ++ rest.map Prod.snd := by
  intro rest
  induction rest with
  | nil =>
    intro pag phi hmap hst _ _
    exact ⟨pag, phi, rfl, hmap, hst, rfl, rfl, by simp, by simp⟩
  | cons p rest ih =>
    intro pag phi hmap hst hres hops
    obtain ⟨opnd, pred⟩ := p
    obtain ⟨opNode, hop⟩ := Map.find_isSome_of_mem _ _ (hops (opnd, pred) (by simp))
    obtain ⟨resNode, hrn⟩ := Map.find_isSome_of_mem _ _ hres
    have hstep : addPhiStmt pag res opnd pred = .ok (none, { pag with
        stmtObjects := Map.modify pag.stmtObjects e (fun stmt => stmt.addOpVar opnd pred) }) := by
      simp only [addPhiStmt, getGNode, hop, hrn, hmap]
    have hst' : SVFIR.stmtAt { pag with
        stmtObjects := Map.modify pag.stmtObjects e (fun stmt => stmt.addOpVar opnd pred) } e
        = some (phi.addOpVar opnd pred) := by
      simp only [stmtAt] at hst ⊢
      rw [Map.find_modify, if_pos rfl, hst]
      rfl
    obtain ⟨pag', phi', h1, h2, h3, h4, h5, h6, h7⟩ :=
      ih { pag with
          stmtObjects := Map.modify pag.stmtObjects e (fun stmt => stmt.addOpVar opnd pred) }
        (phi.addOpVar opnd pred) hmap hst' hres
        (fun q hq => hops q (List.mem_cons_of_mem _ hq))
    refine ⟨pag', phi', ?_, h2, h3, h4, h5, ?_, ?_⟩
    · simp only [addPhiStmtCalls, hstep, h1, List.map_cons]
    · simp only [h6, SVFStmt.addOpVar, List.map_cons, List.append_assoc, List.singleton_append]
    · simp only [h7, SVFStmt.addOpVar, List.map_cons, List.append_assoc, List.singleton_append]

/-- C15: when `getModulusOffset` reduces every offset into `[0, limit)` for the object, then
after any sequence of `getGepObjVar(obj, offset)` calls, started on a graph whose
`GepObjVarMap` has distinct keys and only reduced offsets for the object (the empty map for
one), every call returns and the map holds at most `limit` entries whose base is the
object. -/
theorem getGepObjVar_field_objects_bounded (ext : Externals) (obj : MemObj) (pag : SVFIR)
    (offsets : List APOffset)
    (hmod : ∀ off, 0 ≤ ext.getModulusOffset obj off ∧
      ext.getModulusOffset obj off < (obj.maxFieldOffsetLimit : Int))
    (hnd : (Map.keys pag.GepObjVarMap).Nodup)
    (hr : ∀ k ∈ Map.keys pag.GepObjVarMap, k.1 = obj.id →
      0 ≤ k.2 ∧ k.2 < (obj.maxFieldOffsetLimit : Int)) :
    ∃ pag', getGepObjVarCalls ext obj pag offsets = .ok pag' ∧
      (gepObjEntriesOf pag' obj.id).length ≤ obj.maxFieldOffsetLimit := by
  induction offsets generalizing pag with
  | nil =>
    refine ⟨pag, rfl, ?_⟩
    have := filter_base_length_le obj.maxFieldOffsetLimit obj.id (Map.keys pag.GepObjVarMap) hnd hr
    simp only [gepObjEntriesOf]
    simp only [Map.keys, List.filter_map, List.length_map] at this
    exact this
  | cons offset rest ih =>
    obtain ⟨r, hr1, hnd', hr'⟩ := getGepObjVar_keeps_keys_reduced ext obj pag offset hmod hnd hr
    obtain ⟨pag', h1, h2⟩ := ih r.2 hnd' hr'
    refine ⟨pag', ?_, h2⟩
    simp only [getGepObjVarCalls, hr1, h1]

/-- Witness for C15: five calls on an object with limit 4, from the empty graph. -/
theorem getGepObjVar_field_objects_bounded_witness :
    ∃ pag', getGepObjVarCalls Externals.cyclic ⟨10, false, 4⟩ SVFIR.empty [0, 5, 12, 5, -7]
        = .ok pag' ∧
      (gepObjEntriesOf pag' (⟨10, false, 4⟩ : MemObj).id).length
        ≤ (⟨10, false, 4⟩ : MemObj).maxFieldOffsetLimit :=
  getGepObjVar_field_objects_bounded Externals.cyclic ⟨10, false, 4⟩ SVFIR.empty
    [0, 5, 12, 5, -7]
    (fun off => by
      show (0 : Int) ≤ ((off.natAbs % 4 : Nat) : Int) ∧
        ((off.natAbs % 4 : Nat) : Int) < ((4 : Nat) : Int)
      omega)
    List.nodup_nil
    (fun k hk => by simp [SVFIR.empty, Map.keys] at hk)

/-- C16: for a field-insensitive object `getGepObjVar(obj, offset)` returns the
field-insensitive node of the object for every offset and leaves the graph, with
`GepObjVarMap` and `memToFieldsMap`, as it was. -/
theorem getGepObjVar_field_insensitive (ext : Externals) (pag : SVFIR) (obj : MemObj)
    (offset : APOffset) (h : obj.fieldInsensitive = true) :
    getGepObjVar ext pag obj offset = .ok (ext.getFIObjVar obj, pag) := by
  simp [getGepObjVar, h]

/-- Witness for C16: a field-insensitive object with id 10 and offset 7. -/
theorem getGepObjVar_field_insensitive_witness :
    getGepObjVar Externals.cyclic SVFIR.empty ⟨10, true, 0⟩ 7
      = .ok (Externals.cyclic.getFIObjVar ⟨10, true, 0⟩, SVFIR.empty) :=
  getGepObjVar_field_insensitive Externals.cyclic SVFIR.empty ⟨10, true, 0⟩ 7 rfl

/-- C17: `getFieldsAfterCollapse(id)` fails when `id` has no node or its node is not an
object variable; for an object variable of a field-insensitive memory object it returns
the singleton set of the field-insensitive node and leaves the graph as it was; otherwise
it returns what `getAllFieldsObjVars` returns for the memory object, the set recorded for
it in `memToFieldsMap` (empty when none is recorded). -/
theorem getFieldsAfterCollapse_spec (ext : Externals) (pag : SVFIR) (id : NodeID) :
    match Map.find pag.IDToNodeMap id with
    | none => getFieldsAfterCollapse ext pag id = .error "Node not found!"
    | some node =>
      match node.asObjVar with
      | none => getFieldsAfterCollapse ext pag id = .error "need an object node"
      | some mem =>
        if mem.fieldInsensitive = true then
          getFieldsAfterCollapse ext pag id = .ok ([ext.getFIObjVar mem], pag)
        else
          getFieldsAfterCollapse ext pag id = .ok (pag.getAllFieldsObjVars mem) ∧
          (pag.getAllFieldsObjVars mem).1 = (Map.find pag.memToFieldsMap mem.id).getD [] := by
  cases hf : Map.find pag.IDToNodeMap id with
  | none => simp [getFieldsAfterCollapse, getGNode, hf]
  | some node =>
    cases hobj : node.asObjVar with
    | none => simp [getFieldsAfterCollapse, getGNode, hf, hobj]
    | some mem =>
      simp only [hobj]
      by_cases hfi : mem.fieldInsensitive = true
      · simp [getFieldsAfterCollapse, getGNode, hf, hobj, hfi, NodeBS.set]
      · rw [if_neg hfi]
        refine ⟨by simp [getFieldsAfterCollapse, getGNode, hf, hobj, hfi], ?_⟩
        simp only [getAllFieldsObjVars, Map.subscript]
        cases Map.find pag.memToFieldsMap mem.id <;> rfl

/-- C18: for an id that has a node, `isValidPointer` returns, and returns true exactly when
the node has a value, is a pointer and has as base value variable an argument whose parent
function is not a declaration, or the node has an incoming or outgoing edge and is a
pointer. -/
theorem isValidPointer_iff (ext : Externals) (pag : SVFIR) (nodeId : NodeID) (node : SVFVar)
    (hnode : Map.find pag.IDToNodeMap nodeId = some node) :
    ∃ b, isValidPointer ext pag nodeId = .ok b ∧
      (b = true ↔
        ((ext.hasValue nodeId = true ∧ ext.isPointer nodeId = true ∧
            ∃ pVar, ext.getBaseValVar nodeId = some pVar ∧ pVar.kind = .ArgValVar false) ∨
          ((node.InEdges ≠ [] ∨ node.OutEdges ≠ []) ∧ ext.isPointer nodeId = true))) := by
  have harg : (match ext.getBaseValVar nodeId with
      | some pVar =>
        (match pVar.kind with
          | .ArgValVar parentIsDeclaration => !parentIsDeclaration
          | _ => false)
      | none => false) = true ↔
      ∃ pVar, ext.getBaseValVar nodeId = some pVar ∧ pVar.kind = .ArgValVar false := by
    cases hb : ext.getBaseValVar nodeId with
    | none => simp
    | some pVar =>
      cases hk : pVar.kind with
      | ArgValVar d => cases d <;> simp [hk]
      | _ => simp [hk]
  simp only [isValidPointer, getGNode, hnode]
  split
  · rename_i hc
    refine ⟨true, rfl, ?_⟩
    simp only [Bool.and_eq_true] at hc
    simp only [true_iff]
    exact Or.inl ⟨hc.1.1, hc.1.2, harg.mp hc.2⟩
  · rename_i hc
    have hnot : ¬ (ext.hasValue nodeId = true ∧ ext.isPointer nodeId = true ∧
        ∃ pVar, ext.getBaseValVar nodeId = some pVar ∧ pVar.kind = .ArgValVar false) := by
      intro ⟨h1, h2, h3⟩
      apply hc
      simp only [Bool.and_eq_true]
      exact ⟨⟨h1, h2⟩, harg.mpr h3⟩
    split
    · rename_i he
      refine ⟨false, rfl, ?_⟩
      simp only [Bool.and_eq_true, List.isEmpty_iff] at he
      simp [hnot, he.1, he.2]
    · rename_i he
      refine ⟨ext.isPointer nodeId, rfl, ?_⟩
      simp only [Bool.and_eq_true, List.isEmpty_iff, not_and_or] at he
      constructor
      · intro hp
        exact Or.inr ⟨he, hp⟩
      · intro h
        rcases h with h | h
        · exact absurd h hnot
        · exact h.2

/-- Witness for C18: an isolated node whose base value variable is an argument of a
function definition. -/
theorem isValidPointer_iff_witness :
    ∃ b, isValidPointer
        { Externals.cyclic with getBaseValVar := fun _ => some ⟨.ArgValVar false, [], []⟩ }
        threeValVars 1 = .ok b ∧
      (b = true ↔
        (((true = true) ∧ (true = true) ∧
            ∃ pVar, some (⟨.ArgValVar false, [], []⟩ : SVFVar) = some pVar ∧
              pVar.kind = .ArgValVar false) ∨
          (((⟨.ValVar, [], []⟩ : SVFVar).InEdges ≠ [] ∨
            (⟨.ValVar, [], []⟩ : SVFVar).OutEdges ≠ []) ∧ (true = true)))) :=
  isValidPointer_iff
    { Externals.cyclic with getBaseValVar := fun _ => some ⟨.ArgValVar false, [], []⟩ }
    threeValVars 1 ⟨.ValVar, [], []⟩ (by decide)

/-- C19: when `src` and `dst` have nodes and no Gep edge goes from `src` to `dst` yet,
`addGepStmt(src, dst, ap, constGep)` creates a new Gep statement from `src` to `dst` whose
variant-field flag is set exactly when `constGep` is false or `src` has an incoming variant
Gep edge; the statement is recorded and becomes an incoming edge of `dst`, so that `dst`
has an incoming variant Gep edge whenever the flag is set. -/
theorem addGepStmt_variant_iff (pag : SVFIR) (src dst : NodeID) (ap : AccessPath)
    (constGep : Bool) (srcNode dstNode : SVFVar)
    (hsrc : Map.find pag.IDToNodeMap src = some srcNode)
    (hdst : Map.find pag.IDToNodeMap dst = some dstNode)
    (hno : pag.hasNonlabeledEdge src dst .Gep = false) :
    ∃ e pag', addGepStmt pag src dst ap constGep = .ok (some e, pag') ∧
      pag.stmtAt e = none ∧
      pag'.stmtAt e = some (SVFStmt.newGepStmt src dst ap
        (!constGep || pag.hasIncomingVariantGepEdge srcNode)) ∧
      e ∈ pag'.KindToSVFStmtSetMap ∧
      ∃ dstNode', Map.find pag'.IDToNodeMap dst = some dstNode' ∧ e ∈ dstNode'.InEdges ∧
        ((!constGep || pag.hasIncomingVariantGepEdge srcNode) = true →
          pag'.hasIncomingVariantGepEdge dstNode' = true) := by
  have h := addGepStmtWith_new (!constGep || pag.hasIncomingVariantGepEdge srcNode)
    pag src dst ap srcNode dstNode hsrc hdst hno
  have heq : addGepStmt pag src dst ap constGep
      = addGepStmtWith (!constGep || pag.hasIncomingVariantGepEdge srcNode) pag src dst ap := by
    simp only [addGepStmt, getGNode, hsrc, addVariantGepStmt, addNormalGepStmt]
    cases hc : (!constGep || pag.hasIncomingVariantGepEdge srcNode) <;> simp
  rw [heq]
  exact h

/-- Witness for C19: a variant Gep from 1 to 2, after which a Gep from 2 to 3 added with
`constGep` true is variant, while after a constant Gep from 1 to 2 it is not. -/
theorem addGepStmt_variant_iff_witness :
    (∃ e pag', addGepStmt threeValVars 1 2 ⟨0, []⟩ false = .ok (some e, pag') ∧
      threeValVars.stmtAt e = none ∧
      pag'.stmtAt e = some (SVFStmt.newGepStmt 1 2 ⟨0, []⟩
        (!false || threeValVars.hasIncomingVariantGepEdge ⟨.ValVar, [], []⟩)) ∧
      e ∈ pag'.KindToSVFStmtSetMap ∧
      ∃ dstNode', Map.find pag'.IDToNodeMap 2 = some dstNode' ∧ e ∈ dstNode'.InEdges ∧
        ((!false || threeValVars.hasIncomingVariantGepEdge ⟨.ValVar, [], []⟩) = true →
          pag'.hasIncomingVariantGepEdge dstNode' = true)) ∧
    (match addGepStmt threeValVars 1 2 ⟨0, []⟩ false with
      | .ok (some _, pag) =>
        (match addGepStmt pag 2 3 ⟨1, []⟩ true with
          | .ok (some e2, pag2) => (pag2.stmtAt e2).map (fun stmt => stmt.isVariantFieldGep)
          | _ => none)
      | _ => none) = some true ∧
    (match addGepStmt threeValVars 1 2 ⟨0, []⟩ true with
      | .ok (some _, pag) =>
        (match addGepStmt pag 2 3 ⟨1, []⟩ true with
          | .ok (some e2, pag2) => (pag2.stmtAt e2).map (fun stmt => stmt.isVariantFieldGep)
          | _ => none)
      | _ => none) = some false :=
  ⟨addGepStmt_variant_iff threeValVars 1 2 ⟨0, []⟩ false ⟨.ValVar, [], []⟩ ⟨.ValVar, [], []⟩
      (by decide) (by decide) (by decide),
    by decide, by decide⟩

/-- C20: on a graph where `res` and the operands have nodes and `phiNodeMap` has no entry
for `res`, the calls `addPhiStmt(res, op_1, pred_1)`, ..., `addPhiStmt(res, op_n, pred_n)`
all return; the first returns a new statement and every later one null; afterwards
`phiNodeMap` has one entry for `res`, that statement, a Phi statement into `res` whose
operands are `op_1, ..., op_n` and whose predecessors are `pred_1, ..., pred_n` in call
order. -/
theorem addPhiStmt_calls (pag : SVFIR) (res op1 : NodeID) (pred1 : ICFGNode)
    (rest : List (NodeID × ICFGNode))
    (hres : res ∈ Map.keys pag.IDToNodeMap)
    (hops : ∀ p ∈ (op1, pred1) :: rest, p.1 ∈ Map.keys pag.IDToNodeMap)
    (hno : Map.find pag.phiNodeMap res = none) :
    ∃ e pag' phi,
      addPhiStmtCalls res pag ((op1, pred1) :: rest)
        = .ok (some e :: rest.map (fun _ => none), pag') ∧
      pag.stmtAt e = none ∧
      Map.find pag'.phiNodeMap res = some e ∧ Map.count pag'.phiNodeMap res = 1 ∧
      pag'.stmtAt e = some phi ∧ phi.kind = .Phi ∧ phi.dst = res ∧
      phi.opVars = ((op1, pred1) :: rest).map Prod.fst ∧
      phi.opICFGNodes = ((op1, pred1) :: rest).map Prod.snd := by
  obtain ⟨opNode, hop⟩ := Map.find_isSome_of_mem _ _ (hops (op1, pred1) (by simp))
  obtain ⟨resNode, hrn⟩ := Map.find_isSome_of_mem _ _ hres
  have hfresh := freshAddress_not_mem pag
  have hstep : addPhiStmt pag res op1 pred1 = .ok (some pag.freshAddress,
      { ((pag.newStmt (SVFStmt.newPhiStmt res [op1] [pred1])).2.addToStmt2TypeMap
          pag.freshAddress).addEdge op1 res pag.freshAddress with
        phiNodeMap := Map.assign pag.phiNodeMap res pag.freshAddress }) := by
    simp only [addPhiStmt, getGNode, hop, hrn, hno]
    rfl
  have hmap : Map.find (Map.assign pag.phiNodeMap res pag.freshAddress) res
      = some pag.freshAddress := Map.find_assign_self _ _ _
  have hst : Map.find (pag.stmtObjects ++ [(pag.freshAddress, SVFStmt.newPhiStmt res [op1] [pred1])])
      pag.freshAddress = some (SVFStmt.newPhiStmt res [op1] [pred1]) :=
    Map.find_append_of_not_mem _ _ _ hfresh
  have hkeys : ∀ k, k ∈ Map.keys pag.IDToNodeMap →
      k ∈ Map.keys (Map.modify (Map.modify pag.IDToNodeMap op1
        (fun node => { node with OutEdges := node.OutEdges ++ [pag.freshAddress] })) res
        (fun node => { node with InEdges := node.InEdges ++ [pag.freshAddress] })) := by
    intro k hk
    rw [Map.keys_modify, Map.keys_modify]
    exact hk
  obtain ⟨pag', phi', h1, h2, h3, h4, h5, h6, h7⟩ :=
    addPhiStmtCalls_existing res pag.freshAddress rest
      { ((pag.newStmt (SVFStmt.newPhiStmt res [op1] [pred1])).2.addToStmt2TypeMap
          pag.freshAddress).addEdge op1 res pag.freshAddress with
        phiNodeMap := Map.assign pag.phiNodeMap res pag.freshAddress }
      (SVFStmt.newPhiStmt res [op1] [pred1]) hmap hst (hkeys res hres)
      (fun q hq => hkeys q.1 (hops q (List.mem_cons_of_mem _ hq)))
  refine ⟨pag.freshAddress, pag', phi', ?_, ?_, h2, ?_, h3, ?_, ?_, ?_, ?_⟩
  · simp only [addPhiStmtCalls, hstep, h1]
  · exact (Map.find_eq_none_iff _ _).mpr hfresh
  · simp only [Map.count, h2]
  · rw [h4]; rfl
  · rw [h5]; rfl
  · rw [h6]; rfl
  · rw [h7]; rfl

/-- Witness for C20: three calls for the result 3 with operands 1, 2, 1. -/
theorem addPhiStmt_calls_witness :
    ∃ e pag' phi,
      addPhiStmtCalls 3 threeValVars ((1, 10) :: [(2, 20), (1, 30)])
        = .ok (some e :: [(2, 20), (1, 30)].map (fun _ => none), pag') ∧
      threeValVars.stmtAt e = none ∧
      Map.find pag'.phiNodeMap 3 = some e ∧ Map.count pag'.phiNodeMap 3 = 1 ∧
      pag'.stmtAt e = some phi ∧ phi.kind = .Phi ∧ phi.dst = 3 ∧
      phi.opVars = ((1, 10) :: [(2, 20), (1, 30)]).map Prod.fst ∧
      phi.opICFGNodes = ((1, 10) :: [(2, 20), (1, 30)]).map Prod.snd :=
  addPhiStmt_calls threeValVars 3 1 10 [(2, 20), (1, 30)] (by decide) (by decide) (by decide)

end SVFIR

/-! ## Theorems: constant data and call instructions -/

/-- C21: a value constructed with a kind that `SVFConstantData::classof` accepts answers
`isConstDataOrAggData()` with true only for the kind `SVFConstData`: a newly constructed
`SVFConstantInt`, `SVFConstantFP`, `SVFConstantNullPtr` or `SVFBlackHoleValue` answers
false, until a module builder calls the setter. -/
theorem constDataOrAggData_only_for_SVFConstData (ty : Nat) (z : Nat) (sv : Int) :
    (∀ k, SVFConstantData.classof (SVFConstantData.new ty k) = true →
      ((SVFConstantData.new ty k).isConstDataOrAggData = true ↔ k = .SVFConstData)) ∧
    SVFConstantData.classof (SVFConstantInt.new ty z sv) = true ∧
    (SVFConstantInt.new ty z sv).isConstDataOrAggData = false ∧
    (SVFConstantFP.new ty).isConstDataOrAggData = false ∧
    (SVFConstantNullPtr.new ty).isConstDataOrAggData = false ∧
    (SVFBlackHoleValue.new ty).isConstDataOrAggData = false ∧
    (SVFConstantData.new ty .SVFConstData).isConstDataOrAggData = true ∧
    (SVFConstantInt.new ty z sv).setConstDataOrAggData.isConstDataOrAggData = true := by
  refine ⟨fun k _ => ?_, rfl, rfl, rfl, rfl, rfl, rfl, rfl⟩
  cases k <;> simp [SVFConstantData.new, SVFValue.new, SVFValue.isConstDataOrAggData]

namespace SVFCallInst

/-- The argument vector after a sequence of `addArgument` calls. -/
theorem args_addArguments (call : SVFCallInst) (as : List Nat) :
    (call.addArguments as).args = call.args ++ as := by
  induction as generalizing call with
  | nil => simp [addArguments]
  | cons a rest ih =>
    have := ih (call.addArgument a)
    simp only [addArguments, List.foldl_cons] at this ⊢
    rw [this]
    simp [addArgument]

/-- C23: for a call instruction built by `k` calls of `addArgument`, with `k` in the range
of `u32_t`: `arg_size()` and `getNumArgOperands()` are `k`, `arg_empty()` holds exactly
when `k = 0`, `getArgOperand(i)` returns the `i`-th argument for `i < k`, and it fails the
assertion `out of bound access of the argument` exactly when `i >= k`. -/
theorem arguments_of_call (va : Bool) (as : List Nat) (hk : as.length < 2 ^ 32) :
    ((new va).addArguments as).arg_size = as.length ∧
    ((new va).addArguments as).getNumArgOperands = as.length ∧
    (((new va).addArguments as).arg_empty = true ↔ as.length = 0) ∧
    (∀ i (hi : i < as.length),
      ((new va).addArguments as).getArgOperand i = .ok (as.get ⟨i, hi⟩)) ∧
    (∀ i, ((new va).addArguments as).getArgOperand i
        = .error "out of bound access of the argument" ↔ as.length ≤ i) := by
  have hargs : ((new va).addArguments as).args = as := by
    rw [args_addArguments]
    rfl
  have hsize : ((new va).addArguments as).arg_size = as.length := by
    simp only [arg_size, hargs]
    exact Nat.mod_eq_of_lt hk
  refine ⟨hsize, hsize, ?_, ?_, ?_⟩
  · simp [arg_empty, hargs, List.isEmpty_iff]
  · intro i hi
    simp only [getArgOperand, hsize, hi, if_true, hargs]
    rw [List.get?_eq_get hi]
  · intro i
    simp only [getArgOperand, hsize, hargs]
    by_cases hi : i < as.length
    · simp only [hi, if_true]
      rw [List.get?_eq_get hi]
      constructor
      · intro h; exact absurd h (by simp)
      · intro h; omega
    · simp only [hi, if_false, true_iff]
      omega

/-- Witness for C23: a call with the three arguments 7, 8, 9. -/
theorem arguments_of_call_witness :
    ((new true).addArguments [7, 8, 9]).arg_size = 3 ∧
    ((new true).addArguments [7, 8, 9]).getNumArgOperands = 3 ∧
    (((new true).addArguments [7, 8, 9]).arg_empty = true ↔ [7, 8, 9].length = 0) ∧
    ((new true).addArguments [7, 8, 9]).getArgOperand 1 = .ok 8 ∧
    (((new true).addArguments [7, 8, 9]).getArgOperand 3
        = .error "out of bound access of the argument" ↔ [7, 8, 9].length ≤ 3) :=
  ⟨(arguments_of_call true [7, 8, 9] (by decide)).1,
    (arguments_of_call true [7, 8, 9] (by decide)).2.1,
    (arguments_of_call true [7, 8, 9] (by decide)).2.2.1,
    (arguments_of_call true [7, 8, 9] (by decide)).2.2.2.1 1 (by decide),
    (arguments_of_call true [7, 8, 9] (by decide)).2.2.2.2 3⟩

end SVFCallInst

/-! ## Theorems: field values, memoised field objects, statement adders -/

namespace Map

variable {K V : Type} [DecidableEq K]

/-- An assignment under one key does not change what is found under another. -/
theorem find_assign_ne (m : Map K V) (key k : K) (v : V) (h : k ≠ key) :
    find (assign m key v) k = find m k := by
  induction m with
  | nil =>
    have h2 : ¬ key = k := fun hc => h hc.symm
    simp [assign, find, h2]
  | cons e rest ih =>
    obtain ⟨k1, w⟩ := e
    by_cases hk : k1 = key
    · subst hk
      have h2 : ¬ k1 = k := fun hc => h hc.symm
      simp [assign, find, h2]
    · by_cases hk2 : k1 = k
      · subst hk2
        simp [assign, find, hk]
      · simp only [assign, hk, if_false, find, hk2]
        exact ih

/-- After the subscript `m[k]` the value it returned is found under `k`. -/
theorem find_subscript_self (dflt : V) (m : Map K V) (key : K) :
    find (subscript dflt m key).2 key = some (subscript dflt m key).1 := by
  unfold subscript
  cases hf : find m key with
  | some v => simp [hf]
  | none =>
    simp only
    exact find_append_of_not_mem m key dflt ((find_eq_none_iff m key).mp hf)

/-- The subscript `m[k]` does not change what is found under another key. -/
theorem find_subscript_ne (dflt : V) (m : Map K V) (key k : K) (h : k ≠ key) :
    find (subscript dflt m key).2 k = find m k := by
  unfold subscript
  cases hf : find m key with
  | some v => rfl
  | none =>
    simp only
    induction m with
    | nil =>
      have h2 : ¬ key = k := fun hc => h hc.symm
      simp [find, h2]
    | cons e rest ih =>
      obtain ⟨k1, w⟩ := e
      by_cases hk : k1 = key
      · simp [find, hk] at hf
      · simp only [find, hk, if_false] at hf
        by_cases hk2 : k1 = k
        · simp [find, hk2]
        · simp only [List.cons_append, find, hk2, if_false]
          exact ih hf

/-- The value the subscript returns: the stored one, or the default. -/
theorem subscript_fst (dflt : V) (m : Map K V) (key : K) :
    (subscript dflt m key).1 = (find m key).getD dflt := by
  unfold subscript
  cases find m key <;> rfl

/-- What is found after one entry is appended. -/
theorem find_append_singleton (m : Map K V) (k key : K) (v : V) :
    find (m ++ [(k, v)]) key = (find m key).or (if k = key then some v else none) := by
  induction m with
  | nil => simp [find]
  | cons e rest ih =>
    obtain ⟨k1, w⟩ := e
    by_cases h : k1 = key
    · simp [find, h]
    · simp only [List.cons_append, find, h, if_false]
      exact ih

end Map

namespace SVFIR

/-- `getGepValVar` leaves the graph as it is. -/
theorem getGepValVar_snd (pag : SVFIR) (c : Nat) (b : NodeID) (a : AccessPath) :
    (getGepValVar pag c b a).2 = pag := by
  unfold getGepValVar
  split
  · rfl
  · split <;> rfl

/-- The members of a set after `set(i)`. -/
theorem mem_set (bs : NodeBS) (i x : NodeID) : x ∈ NodeBS.set bs i ↔ x = i ∨ x ∈ bs := by
  induction bs with
  | nil => simp [NodeBS.set]
  | cons a rest ih =>
    simp only [NodeBS.set]
    split
    · simp
    · split
      · rename_i h
        subst h
        simp
      · simp only [List.mem_cons, ih]
        constructor
        · rintro (h | h | h)
          · exact Or.inr (Or.inl h)
          · exact Or.inl h
          · exact Or.inr (Or.inr h)
        · rintro (h | h | h)
          · exact Or.inr (Or.inl h)
          · exact Or.inl h
          · exact Or.inr (Or.inr h)

/-- The lookups at the head of an adder succeed when the ids have nodes. -/
theorem getGNodes_eq_ok (pag : SVFIR) (ids : List NodeID)
    (h : ∀ id ∈ ids, id ∈ Map.keys pag.IDToNodeMap) : pag.getGNodes ids = .ok () := by
  induction ids with
  | nil => rfl
  | cons id rest ih =>
    obtain ⟨node, hn⟩ := Map.find_isSome_of_mem _ _ (h id (by simp))
    simp only [getGNodes, getGNode, hn]
    exact ih (fun j hj => h j (List.mem_cons_of_mem _ hj))

/-- The shared branch returns the fresh address. -/
theorem addNewStmt_fst (pag : SVFIR) (src dst : NodeID) (stmt : SVFStmt) :
    (pag.addNewStmt src dst stmt).1 = some pag.freshAddress := rfl

/-- The shared branch adds the fresh address to the statement set. -/
theorem addNewStmt_set (pag : SVFIR) (src dst : NodeID) (stmt : SVFStmt) :
    (pag.addNewStmt src dst stmt).2.KindToSVFStmtSetMap
      = pag.KindToSVFStmtSetMap ++ [pag.freshAddress] := rfl

/-- The statement objects after the shared branch. -/
theorem addNewStmt_stmtAt (pag : SVFIR) (src dst : NodeID) (stmt : SVFStmt) (e : StmtId) :
    (pag.addNewStmt src dst stmt).2.stmtAt e
      = (pag.stmtAt e).or (if pag.freshAddress = e then some stmt else none) :=
  Map.find_append_singleton pag.stmtObjects pag.freshAddress e stmt

/-- No statement object lives at the fresh address. -/
theorem stmtAt_freshAddress (pag : SVFIR) : pag.stmtAt pag.freshAddress = none :=
  (Map.find_eq_none_iff _ _).mpr (freshAddress_not_mem pag)

/-- The shared branch keeps the ids that have nodes. -/
theorem addNewStmt_keys (pag : SVFIR) (src dst : NodeID) (stmt : SVFStmt) :
    Map.keys (pag.addNewStmt src dst stmt).2.IDToNodeMap = Map.keys pag.IDToNodeMap := by
  simp only [addNewStmt, addEdge, addToStmt2TypeMap, newStmt, Map.keys_modify]

/-- The node of an id after the shared branch: the new statement is one more incoming edge
of the destination and one more outgoing edge of the source. -/
theorem addNewStmt_find_node (pag : SVFIR) (src dst : NodeID) (stmt : SVFStmt) (n : NodeID) :
    Map.find (pag.addNewStmt src dst stmt).2.IDToNodeMap n
      = (Map.find pag.IDToNodeMap n).map (fun node =>
          { kind := node.kind
            InEdges := node.InEdges ++ (if n = dst then [pag.freshAddress] else [])
            OutEdges := node.OutEdges ++ (if n = src then [pag.freshAddress] else []) }) := by
  simp only [addNewStmt, addEdge, addToStmt2TypeMap, newStmt, Map.find_modify]
  cases hn : Map.find pag.IDToNodeMap n with
  | none => by_cases h1 : n = src <;> by_cases h2 : n = dst <;> simp [h1, h2]
  | some node => by_cases h1 : n = src <;> by_cases h2 : n = dst <;> simp_all

/-- The outgoing edges after the shared branch. -/
theorem addNewStmt_outEdges (pag : SVFIR) (src dst : NodeID) (stmt : SVFStmt)
    (hsrc : src ∈ Map.keys pag.IDToNodeMap) (n : NodeID) :
    (pag.addNewStmt src dst stmt).2.outEdgesOf n
      = pag.outEdgesOf n ++ (if n = src then [pag.freshAddress] else []) := by
  simp only [outEdgesOf, addNewStmt_find_node]
  cases hn : Map.find pag.IDToNodeMap n with
  | none =>
    have h1 : ¬ n = src := by
      intro h
      rw [h] at hn
      exact absurd hsrc ((Map.find_eq_none_iff _ _).mp hn)
    simp [h1]
  | some node => rfl

/-- The incoming edges after the shared branch. -/
theorem addNewStmt_inEdges (pag : SVFIR) (src dst : NodeID) (stmt : SVFStmt)
    (hdst : dst ∈ Map.keys pag.IDToNodeMap) (n : NodeID) :
    (pag.addNewStmt src dst stmt).2.inEdgesOf n
      = pag.inEdgesOf n ++ (if n = dst then [pag.freshAddress] else []) := by
  simp only [inEdgesOf, addNewStmt_find_node]
  cases hn : Map.find pag.IDToNodeMap n with
  | none =>
    have h1 : ¬ n = dst := by
      intro h
      rw [h] at hn
      exact absurd hdst ((Map.find_eq_none_iff _ _).mp hn)
    simp [h1]
  | some node => rfl

/-- A non-labeled statement just added is found by `hasNonlabeledEdge`. -/
theorem hasNonlabeledEdge_addNewStmt (pag : SVFIR) (src dst : NodeID) (stmt : SVFStmt)
    (hl : stmt.label = none) :
    (pag.addNewStmt src dst stmt).2.hasNonlabeledEdge stmt.src stmt.dst stmt.kind = true := by
  simp only [hasNonlabeledEdge, addNewStmt_set, List.any_append, List.any_cons, List.any_nil,
    Bool.or_false, Bool.or_eq_true]
  right
  rw [addNewStmt_stmtAt, stmtAt_freshAddress]
  simp [hl]

/-- A labeled statement just added is found by `hasLabeledEdge` under its label. -/
theorem hasLabeledEdge_addNewStmt (pag : SVFIR) (src dst : NodeID) (stmt : SVFStmt)
    (label : Nat) (hl : stmt.label = some label) :
    (pag.addNewStmt src dst stmt).2.hasLabeledEdge stmt.src stmt.dst stmt.kind label = true := by
  simp only [hasLabeledEdge, addNewStmt_set, List.any_append, List.any_cons, List.any_nil,
    Bool.or_false, Bool.or_eq_true]
  right
  rw [addNewStmt_stmtAt, stmtAt_freshAddress]
  simp [hl]

/-- Adding a statement does not change the answer of `hasLabeledEdge` for another label. -/
theorem hasLabeledEdge_addNewStmt_other (pag : SVFIR) (src dst : NodeID) (stmt : SVFStmt)
    (s d : NodeID) (k : PEDGEK) (label : Nat) (hne : stmt.label ≠ some label) :
    (pag.addNewStmt src dst stmt).2.hasLabeledEdge s d k label
      = pag.hasLabeledEdge s d k label := by
  have hpoint : ∀ e : StmtId,
      (match (pag.addNewStmt src dst stmt).2.stmtAt e with
        | some x => decide (x.src = s) && decide (x.dst = d) && decide (x.kind = k)
            && decide (x.label = some label)
        | none => false)
      = (match pag.stmtAt e with
        | some x => decide (x.src = s) && decide (x.dst = d) && decide (x.kind = k)
            && decide (x.label = some label)
        | none => false) := by
    intro e
    rw [addNewStmt_stmtAt]
    cases he : pag.stmtAt e with
    | some x => rfl
    | none =>
      by_cases hf : pag.freshAddress = e
      · simp [hf, hne]
      · simp [hf]
  simp only [hasLabeledEdge, addNewStmt_set, List.any_append, List.any_cons, List.any_nil,
    Bool.or_false, hpoint]
  rw [stmtAt_freshAddress]
  simp

/-- An adder of the common shape (node lookups, presence query, shared branch) adds once. -/
theorem addsOnce_of_shape (pag : SVFIR) (src dst : NodeID) (stmt : SVFStmt)
    (ids : List NodeID) (adder : SVFIR → Outcome (Option StmtId × SVFIR))
    (query : SVFIR → Bool)
    (hshape : ∀ g : SVFIR, g.getGNodes ids = .ok () →
      adder g = if query g = true then .ok (none, g) else .ok (g.addNewStmt src dst stmt))
    (hids : ∀ id ∈ ids, id ∈ Map.keys pag.IDToNodeMap)
    (hsrc : src ∈ Map.keys pag.IDToNodeMap) (hdst : dst ∈ Map.keys pag.IDToNodeMap)
    (hq0 : query pag = false) (hq1 : query (pag.addNewStmt src dst stmt).2 = true)
    (hs : stmt.src = src) (hd : stmt.dst = dst) :
    AddsOnce pag src dst adder := by
  refine ⟨pag.freshAddress, (pag.addNewStmt src dst stmt).2, ?_, stmtAt_freshAddress pag,
    ⟨stmt, ?_, hs, hd⟩, addNewStmt_set pag src dst stmt,
    addNewStmt_outEdges pag src dst stmt hsrc, addNewStmt_inEdges pag src dst stmt hdst, ?_⟩
  · rw [hshape pag (getGNodes_eq_ok pag ids hids), hq0]
    rfl
  · rw [addNewStmt_stmtAt, stmtAt_freshAddress]
    simp
  · have hids1 : ∀ id ∈ ids, id ∈ Map.keys (pag.addNewStmt src dst stmt).2.IDToNodeMap := by
      intro id hid
      rw [addNewStmt_keys]
      exact hids id hid
    rw [hshape _ (getGNodes_eq_ok _ ids hids1), hq1]
    rfl

/-- C22: on a graph where the ids have nodes, each of the thirteen adders, called when the
statement set holds no statement with its key (source, destination and kind, and for the
labeled ones the label), returns a new statement, which is the one new member of the
statement set, the one new outgoing edge of the source and the one new incoming edge of
the destination; a second call with the same arguments returns null and leaves the graph
as it is.  Two `addStoreStmt` calls with the same source and destination and different
ICFG nodes create two distinct statements. -/
theorem adders_do_not_duplicate (pag : SVFIR) (src dst op2 cond : NodeID)
    (type opcode predicate : Nat) (succs : List (ICFGNode × Int)) (cs fn : ICFGNode)
    (hsrc : src ∈ Map.keys pag.IDToNodeMap) (hdst : dst ∈ Map.keys pag.IDToNodeMap)
    (hop2 : op2 ∈ Map.keys pag.IDToNodeMap) (hcond : cond ∈ Map.keys pag.IDToNodeMap) :
    (pag.hasNonlabeledEdge src dst .Addr = false →
      AddsOnce pag src dst (fun g => g.addAddrStmt src dst)) ∧
    (pag.hasNonlabeledEdge src dst .Copy = false →
      AddsOnce pag src dst (fun g => g.addCopyStmt src dst type)) ∧
    (pag.hasNonlabeledEdge src dst .Load = false →
      AddsOnce pag src dst (fun g => g.addLoadStmt src dst)) ∧
    (pag.hasNonlabeledEdge src dst .UnaryOp = false →
      AddsOnce pag src dst (fun g => g.addUnaryOPStmt src dst opcode)) ∧
    (pag.hasNonlabeledEdge cond dst .Branch = false →
      AddsOnce pag cond dst (fun g => g.addBranchStmt dst cond succs)) ∧
    (pag.hasLabeledEdge src dst .Cmp op2 = false →
      AddsOnce pag src dst (fun g => g.addCmpStmt src op2 dst predicate)) ∧
    (pag.hasLabeledEdge src dst .BinaryOp op2 = false →
      AddsOnce pag src dst (fun g => g.addBinaryOPStmt src op2 dst opcode)) ∧
    (pag.hasLabeledEdge src dst .Select op2 = false →
      AddsOnce pag src dst (fun g => g.addSelectStmt dst src op2 cond)) ∧
    (pag.hasLabeledEdge src dst .Store cs = false →
      AddsOnce pag src dst (fun g => g.addStoreStmt src dst cs)) ∧
    (pag.hasLabeledEdge src dst .Call cs = false →
      AddsOnce pag src dst (fun g => g.addCallPE src dst cs fn)) ∧
    (pag.hasLabeledEdge src dst .Ret cs = false →
      AddsOnce pag src dst (fun g => g.addRetPE src dst cs fn)) ∧
    (pag.hasLabeledEdge src dst .ThreadFork cs = false →
      AddsOnce pag src dst (fun g => g.addThreadForkPE src dst cs fn)) ∧
    (pag.hasLabeledEdge src dst .ThreadJoin cs = false →
      AddsOnce pag src dst (fun g => g.addThreadJoinPE src dst cs fn)) ∧
    (∀ n1 n2 : ICFGNode, n1 ≠ n2 →
      pag.hasLabeledEdge src dst .Store n1 = false →
      pag.hasLabeledEdge src dst .Store n2 = false →
      ∃ e1 pag1 e2 pag2,
        pag.addStoreStmt src dst n1 = .ok (some e1, pag1) ∧
        pag1.addStoreStmt src dst n2 = .ok (some e2, pag2) ∧
        e1 ≠ e2 ∧
        pag2.stmtAt e1 = some (SVFStmt.newStoreStmt src dst n1) ∧
        pag2.stmtAt e2 = some (SVFStmt.newStoreStmt src dst n2) ∧
        pag2.KindToSVFStmtSetMap = pag.KindToSVFStmtSetMap ++ [e1, e2]) := by
  have hsd : ∀ id ∈ [src, dst], id ∈ Map.keys pag.IDToNodeMap := by
    intro id hid
    simp only [List.mem_cons, List.mem_singleton, List.not_mem_nil, or_false] at hid
    rcases hid with h | h <;> subst h <;> assumption
  have hcd : ∀ id ∈ [dst, cond], id ∈ Map.keys pag.IDToNodeMap := by
    intro id hid
    simp only [List.mem_cons, List.mem_singleton, List.not_mem_nil, or_false] at hid
    rcases hid with h | h <;> subst h <;> assumption
  have h3 : ∀ id ∈ [src, op2, dst], id ∈ Map.keys pag.IDToNodeMap := by
    intro id hid
    simp only [List.mem_cons, List.mem_singleton, List.not_mem_nil, or_false] at hid
    rcases hid with h | h | h <;> subst h <;> assumption
  have h4 : ∀ id ∈ [src, op2, dst, cond], id ∈ Map.keys pag.IDToNodeMap := by
    intro id hid
    simp only [List.mem_cons, List.mem_singleton, List.not_mem_nil, or_false] at hid
    rcases hid with h | h | h | h <;> subst h <;> assumption
  refine ⟨?_, ?_, ?_, ?_, ?_, ?_, ?_, ?_, ?_, ?_, ?_, ?_, ?_, ?_⟩
  · intro h0
    exact addsOnce_of_shape pag src dst (SVFStmt.newAddrStmt src dst) [src, dst] _
      (fun g => g.hasNonlabeledEdge src dst .Addr)
      (fun g hg => by simp only [addAddrStmt, hg]) hsd hsrc hdst h0
      (hasNonlabeledEdge_addNewStmt pag src dst _ rfl) rfl rfl
  · intro h0
    exact addsOnce_of_shape pag src dst (SVFStmt.newCopyStmt src dst type) [src, dst] _
      (fun g => g.hasNonlabeledEdge src dst .Copy)
      (fun g hg => by simp only [addCopyStmt, hg]) hsd hsrc hdst h0
      (hasNonlabeledEdge_addNewStmt pag src dst _ rfl) rfl rfl
  · intro h0
    exact addsOnce_of_shape pag src dst (SVFStmt.newLoadStmt src dst) [src, dst] _
      (fun g => g.hasNonlabeledEdge src dst .Load)
      (fun g hg => by simp only [addLoadStmt, hg]) hsd hsrc hdst h0
      (hasNonlabeledEdge_addNewStmt pag src dst _ rfl) rfl rfl
  · intro h0
    exact addsOnce_of_shape pag src dst (SVFStmt.newUnaryOPStmt src dst opcode) [src, dst] _
      (fun g => g.hasNonlabeledEdge src dst .UnaryOp)
      (fun g hg => by simp only [addUnaryOPStmt, hg]) hsd hsrc hdst h0
      (hasNonlabeledEdge_addNewStmt pag src dst _ rfl) rfl rfl
  · intro h0
    exact addsOnce_of_shape pag cond dst (SVFStmt.newBranchStmt dst cond succs) [dst, cond] _
      (fun g => g.hasNonlabeledEdge cond dst .Branch)
      (fun g hg => by simp only [addBranchStmt, hg]) hcd hcond hdst h0
      (hasNonlabeledEdge_addNewStmt pag cond dst _ rfl) rfl rfl
  · intro h0
    exact addsOnce_of_shape pag src dst (SVFStmt.newCmpStmt dst src op2 predicate)
      [src, op2, dst] _ (fun g => g.hasLabeledEdge src dst .Cmp op2)
      (fun g hg => by simp only [addCmpStmt, hg]) h3 hsrc hdst h0
      (hasLabeledEdge_addNewStmt pag src dst _ op2 rfl) rfl rfl
  · intro h0
    exact addsOnce_of_shape pag src dst (SVFStmt.newBinaryOPStmt dst src op2 opcode)
      [src, op2, dst] _ (fun g => g.hasLabeledEdge src dst .BinaryOp op2)
      (fun g hg => by simp only [addBinaryOPStmt, hg]) h3 hsrc hdst h0
      (hasLabeledEdge_addNewStmt pag src dst _ op2 rfl) rfl rfl
  · intro h0
    exact addsOnce_of_shape pag src dst (SVFStmt.newSelectStmt dst src op2 cond)
      [src, op2, dst, cond] _ (fun g => g.hasLabeledEdge src dst .Select op2)
      (fun g hg => by simp only [addSelectStmt, hg]) h4 hsrc hdst h0
      (hasLabeledEdge_addNewStmt pag src dst _ op2 rfl) rfl rfl
  · intro h0
    exact addsOnce_of_shape pag src dst (SVFStmt.newStoreStmt src dst cs) [src, dst] _
      (fun g => g.hasLabeledEdge src dst .Store cs)
      (fun g hg => by simp only [addStoreStmt, hg]) hsd hsrc hdst h0
      (hasLabeledEdge_addNewStmt pag src dst _ cs rfl) rfl rfl
  · intro h0
    exact addsOnce_of_shape pag src dst (SVFStmt.newCallOrRetPE .Call src dst cs fn) [src, dst] _
      (fun g => g.hasLabeledEdge src dst .Call cs)
      (fun g hg => by simp only [addCallPE, hg]) hsd hsrc hdst h0
      (hasLabeledEdge_addNewStmt pag src dst _ cs rfl) rfl rfl
  · intro h0
    exact addsOnce_of_shape pag src dst (SVFStmt.newCallOrRetPE .Ret src dst cs fn) [src, dst] _
      (fun g => g.hasLabeledEdge src dst .Ret cs)
      (fun g hg => by simp only [addRetPE, hg]) hsd hsrc hdst h0
      (hasLabeledEdge_addNewStmt pag src dst _ cs rfl) rfl rfl
  · intro h0
    exact addsOnce_of_shape pag src dst (SVFStmt.newCallOrRetPE .ThreadFork src dst cs fn)
      [src, dst] _ (fun g => g.hasLabeledEdge src dst .ThreadFork cs)
      (fun g hg => by simp only [addThreadForkPE, hg]) hsd hsrc hdst h0
      (hasLabeledEdge_addNewStmt pag src dst _ cs rfl) rfl rfl
  · intro h0
    exact addsOnce_of_shape pag src dst (SVFStmt.newCallOrRetPE .ThreadJoin src dst cs fn)
      [src, dst] _ (fun g => g.hasLabeledEdge src dst .ThreadJoin cs)
      (fun g hg => by simp only [addThreadJoinPE, hg]) hsd hsrc hdst h0
      (hasLabeledEdge_addNewStmt pag src dst _ cs rfl) rfl rfl
  · intro n1 n2 hne h1 h2
    have hg0 := getGNodes_eq_ok pag [src, dst] hsd
    have hsd1 : ∀ id ∈ [src, dst], id ∈ Map.keys
        (pag.addNewStmt src dst (SVFStmt.newStoreStmt src dst n1)).2.IDToNodeMap := by
      intro id hid
      rw [addNewStmt_keys]
      exact hsd id hid
    have hg1 := getGNodes_eq_ok _ [src, dst] hsd1
    have hno2 : (pag.addNewStmt src dst (SVFStmt.newStoreStmt src dst n1)).2.hasLabeledEdge
        src dst .Store n2 = false := by
      rw [hasLabeledEdge_addNewStmt_other pag src dst _ src dst .Store n2
        (by simp [SVFStmt.newStoreStmt, SVFStmt.plain, hne])]
      exact h2
    have hfresh1 : (pag.addNewStmt src dst (SVFStmt.newStoreStmt src dst n1)).2.stmtAt
        pag.freshAddress = some (SVFStmt.newStoreStmt src dst n1) := by
      rw [addNewStmt_stmtAt, stmtAt_freshAddress]
      simp
    have hne12 : pag.freshAddress
        ≠ (pag.addNewStmt src dst (SVFStmt.newStoreStmt src dst n1)).2.freshAddress := by
      intro h
      have := stmtAt_freshAddress (pag.addNewStmt src dst (SVFStmt.newStoreStmt src dst n1)).2
      rw [← h, hfresh1] at this
      exact absurd this (by simp)
    refine ⟨pag.freshAddress, (pag.addNewStmt src dst (SVFStmt.newStoreStmt src dst n1)).2,
      (pag.addNewStmt src dst (SVFStmt.newStoreStmt src dst n1)).2.freshAddress,
      ((pag.addNewStmt src dst (SVFStmt.newStoreStmt src dst n1)).2.addNewStmt src dst
        (SVFStmt.newStoreStmt src dst n2)).2, ?_, ?_, hne12, ?_, ?_, ?_⟩
    · simp only [addStoreStmt, hg0, h1, Bool.false_eq_true, if_false]
      rfl
    · simp only [addStoreStmt, hg1, hno2, Bool.false_eq_true, if_false]
      rfl
    · rw [addNewStmt_stmtAt, hfresh1]
      rfl
    · rw [addNewStmt_stmtAt, stmtAt_freshAddress]
      simp
    · rw [addNewStmt_set, addNewStmt_set]
      simp

/-- Witness for C22: `addAddrStmt(1, 2)` and `addStoreStmt(1, 2, 7)` on the graph of three
value variables. -/
theorem adders_do_not_duplicate_witness :
    AddsOnce threeValVars 1 2 (fun g => g.addAddrStmt 1 2) ∧
    AddsOnce threeValVars 1 2 (fun g => g.addStoreStmt 1 2 7) :=
  ⟨(adders_do_not_duplicate threeValVars 1 2 3 3 0 0 0 [] 7 8
      (by decide) (by decide) (by decide) (by decide)).1 (by decide),
    (adders_do_not_duplicate threeValVars 1 2 3 3 0 0 0 [] 7 8
      (by decide) (by decide) (by decide) (by decide)).2.2.2.2.2.2.2.2.1 (by decide)⟩

/-- C24: when `addGepValNode(curInst, gepVal, ap, i, type)` succeeds, it returns `i`, and
afterwards `getGepValVar(curInst, base, ap)` returns `i` for the value node `base` of
`gepVal`, where it returned `UINT_MAX` before; for every other (instruction, base, access
path), also the same base and access path under another instruction, `getGepValVar`
returns what it returned before; `getGepValVar` leaves the graph as it is; adding the
same (instruction, base, access path) again fails the assertion; and on the graph without
field values `getGepValVar` returns `UINT_MAX` everywhere. -/
theorem getGepValVar_after_addGepValNode (ext : Externals) (pag pag1 : SVFIR)
    (curInst gepVal : Nat) (ap : AccessPath) (i r type : Nat)
    (hadd : addGepValNode ext pag curInst gepVal ap i type = .ok (r, pag1)) :
    r = i ∧
    (getGepValVar pag1 curInst (ext.getValueNode gepVal) ap).1 = i ∧
    (getGepValVar pag curInst (ext.getValueNode gepVal) ap).1 = UINT_MAX ∧
    (∀ c b a, (c, b, a) ≠ (curInst, ext.getValueNode gepVal, ap) →
      (getGepValVar pag1 c b a).1 = (getGepValVar pag c b a).1) ∧
    (∀ c b a, (getGepValVar pag1 c b a).2 = pag1) ∧
    (∀ gepVal2 i2 type2, ext.getValueNode gepVal2 = ext.getValueNode gepVal →
      addGepValNode ext pag1 curInst gepVal2 ap i2 type2
        = .error "this node should not be created before") ∧
    (∀ c b a, (getGepValVar empty c b a).1 = UINT_MAX) := by
  unfold addGepValNode at hadd
  simp only [addValNode] at hadd
  split at hadd
  · exact absurd hadd (by simp)
  · rename_i hcount
    simp only [Except.ok.injEq, Prod.mk.injEq] at hadd
    obtain ⟨hr, hp⟩ := hadd
    have hcount0 : Map.count (Map.subscript [] pag.GepValObjMap curInst).1
        (ext.getValueNode gepVal, ap) = 0 := by
      by_contra hc
      exact hcount hc
    have hinner0 : Map.find (Map.subscript [] pag.GepValObjMap curInst).1
        (ext.getValueNode gepVal, ap) = none := by
      rw [Map.find_eq_none_iff, ← Map.count_eq_zero_iff]
      exact hcount0
    have hmap : pag1.GepValObjMap = Map.assign (Map.subscript [] pag.GepValObjMap curInst).2
        curInst (Map.assign (Map.subscript [] pag.GepValObjMap curInst).1
          (ext.getValueNode gepVal, ap) i) := by
      rw [← hp]
    have hfind1 : Map.find pag1.GepValObjMap curInst
        = some (Map.assign (Map.subscript [] pag.GepValObjMap curInst).1
          (ext.getValueNode gepVal, ap) i) := by
      rw [hmap, Map.find_assign_self]
    refine ⟨hr.symm, ?_, ?_, ?_, ?_, ?_, fun _ _ _ => rfl⟩
    · simp only [getGepValVar, hfind1, Map.find_assign_self]
    · simp only [getGepValVar]
      rw [Map.subscript_fst] at hinner0
      cases hf : Map.find pag.GepValObjMap curInst with
      | none => rfl
      | some inner =>
        rw [hf] at hinner0
        simp only [Option.getD_some] at hinner0
        simp only [hinner0]
    · intro c b a hne
      simp only [getGepValVar]
      by_cases hc : c = curInst
      · subst hc
        have hba : (b, a) ≠ (ext.getValueNode gepVal, ap) := by
          intro h
          apply hne
          rw [h]
        rw [hfind1]
        simp only [Map.find_assign_ne _ _ _ _ hba, Map.subscript_fst]
        cases hf : Map.find pag.GepValObjMap c with
        | none => simp [Map.find]
        | some inner =>
          simp only [Option.getD_some]
          cases Map.find inner (b, a) <;> rfl
      · rw [hmap, Map.find_assign_ne _ _ _ _ hc, Map.find_subscript_ne _ _ _ _ hc]
        cases hf : Map.find pag.GepValObjMap c with
        | none => rfl
        | some inner =>
          simp only
          cases Map.find inner (b, a) <;> rfl
    · intro c b a
      exact getGepValVar_snd pag1 c b a
    · intro gepVal2 i2 type2 hsame
      unfold addGepValNode
      have hsub : (Map.subscript [] pag1.GepValObjMap curInst).1
          = Map.assign (Map.subscript [] pag.GepValObjMap curInst).1
            (ext.getValueNode gepVal, ap) i := by
        rw [Map.subscript_fst, hfind1]
        rfl
      have hc1 : Map.count (Map.subscript [] pag1.GepValObjMap curInst).1
          (ext.getValueNode gepVal2, ap) ≠ 0 := by
        rw [hsub, hsame]
        simp [Map.count, Map.find_assign_self]
      simp only [hc1, ne_eq, not_false_eq_true, if_true]

/-- Witness for C24: the node 42 added for instruction 7, value 5 and field 0 on the empty
graph. -/
theorem getGepValVar_after_addGepValNode_witness :
    (getGepValVar
      { empty with
        IDToNodeMap := [(42, ⟨.GepValVar, [], []⟩)]
        GepValObjMap := [(7, [((5, ⟨0, []⟩), 42)])] } 7 5 ⟨0, []⟩).1 = 42 ∧
    (getGepValVar empty 7 (Externals.cyclic.getValueNode 5) ⟨0, []⟩).1 = UINT_MAX :=
  ⟨(getGepValVar_after_addGepValNode Externals.cyclic empty
      { empty with
        IDToNodeMap := [(42, ⟨.GepValVar, [], []⟩)]
        GepValObjMap := [(7, [((5, ⟨0, []⟩), 42)])] } 7 5 ⟨0, []⟩ 42 42 0 (by decide)).2.1,
    (getGepValVar_after_addGepValNode Externals.cyclic empty
      { empty with
        IDToNodeMap := [(42, ⟨.GepValVar, [], []⟩)]
        GepValObjMap := [(7, [((5, ⟨0, []⟩), 42)])] } 7 5 ⟨0, []⟩ 42 42 0 (by decide)).2.2.1⟩

/-- C25: for a field-sensitive object and two offsets with the same reduced offset, on a
graph where every id recorded in `GepObjVarMap` is a member of the field set of its base
(the empty graph for one): the first call returns an id and the second call returns the
same id and leaves the graph as the first call left it, as does a repeated first call;
when the reduced offset is already recorded the first call changes nothing either; under
`FirstFieldEqBase` with reduced offset 0 the id is the base id and nothing changes;
otherwise the id is a member of the field set of the object; and afterwards every recorded
id is again a member of the field set of its base. -/
theorem getGepObjVar_memoised (ext : Externals) (pag : SVFIR) (obj : MemObj)
    (off1 off2 : APOffset)
    (hfs : obj.fieldInsensitive = false)
    (hsame : ext.getModulusOffset obj off1 = ext.getModulusOffset obj off2)
    (hinv : ∀ base off id, Map.find pag.GepObjVarMap (base, off) = some id →
      id ∈ (Map.find pag.memToFieldsMap base).getD []) :
    ∃ id pag1, getGepObjVar ext pag obj off1 = .ok (id, pag1) ∧
      getGepObjVar ext pag1 obj off2 = .ok (id, pag1) ∧
      getGepObjVar ext pag1 obj off1 = .ok (id, pag1) ∧
      ((∃ known, Map.find pag.GepObjVarMap (obj.id, ext.getModulusOffset obj off1) = some known)
        → pag1 = pag) ∧
      ((ext.FirstFieldEqBase && decide (ext.getModulusOffset obj off1 = 0)) = true →
        id = obj.id ∧ pag1 = pag) ∧
      ((ext.FirstFieldEqBase && decide (ext.getModulusOffset obj off1 = 0)) = false →
        id ∈ (Map.find pag1.memToFieldsMap obj.id).getD []) ∧
      (∀ base off id', Map.find pag1.GepObjVarMap (base, off) = some id' →
        id' ∈ (Map.find pag1.memToFieldsMap base).getD []) := by
  by_cases hff : (ext.FirstFieldEqBase && decide (ext.getModulusOffset obj off1 = 0)) = true
  · have hff2 : (ext.FirstFieldEqBase && decide (ext.getModulusOffset obj off2 = 0)) = true := by
      rw [← hsame]; exact hff
    refine ⟨obj.id, pag, ?_, ?_, ?_, fun _ => rfl, fun _ => ⟨rfl, rfl⟩, ?_, hinv⟩
    · simp [getGepObjVar, hfs, hff]
    · simp [getGepObjVar, hfs, hff2]
    · simp [getGepObjVar, hfs, hff]
    · intro h
      rw [h] at hff
      exact absurd hff (by simp)
  · have hff2 : ¬ (ext.FirstFieldEqBase && decide (ext.getModulusOffset obj off2 = 0)) = true := by
      rw [← hsame]; exact hff
    cases hfind : Map.find pag.GepObjVarMap (obj.id, ext.getModulusOffset obj off1) with
    | some known =>
      have hfind2 : Map.find pag.GepObjVarMap (obj.id, ext.getModulusOffset obj off2)
          = some known := by rw [← hsame]; exact hfind
      refine ⟨known, pag, ?_, ?_, ?_, fun _ => rfl, fun h => absurd h hff, ?_, hinv⟩
      · simp [getGepObjVar, hfs, hff, hfind]
      · simp [getGepObjVar, hfs, hff2, hfind2]
      · simp [getGepObjVar, hfs, hff, hfind]
      · intro _
        exact hinv _ _ _ hfind
    | none =>
      have hcount : Map.count pag.GepObjVarMap (obj.id, ext.getModulusOffset obj off1) = 0 := by
        simp [Map.count, hfind]
      have hfirst : getGepObjVar ext pag obj off1 = .ok
          ((ext.allocateGepObjectId obj.id off1 ext.MaxFieldLimit pag.nodeIDAllocator).1,
            { pag with
              nodeIDAllocator :=
                (ext.allocateGepObjectId obj.id off1 ext.MaxFieldLimit pag.nodeIDAllocator).2
              GepObjVarMap := Map.assign pag.GepObjVarMap
                (obj.id, ext.getModulusOffset obj off1)
                (ext.allocateGepObjectId obj.id off1 ext.MaxFieldLimit pag.nodeIDAllocator).1
              memToFieldsMap := Map.assign (Map.subscript [] pag.memToFieldsMap obj.id).2 obj.id
                (NodeBS.set (Map.subscript [] pag.memToFieldsMap obj.id).1
                  (ext.allocateGepObjectId obj.id off1 ext.MaxFieldLimit pag.nodeIDAllocator).1)
              IDToNodeMap := Map.assign pag.IDToNodeMap
                (ext.allocateGepObjectId obj.id off1 ext.MaxFieldLimit pag.nodeIDAllocator).1
                { kind := .GepObjVar obj (ext.getModulusOffset obj off1),
                  InEdges := [], OutEdges := [] } }) := by
        simp [getGepObjVar, hfs, hff, hfind, addGepObjNode, hcount, addObjNode]
      have hffb : (ext.FirstFieldEqBase && decide (ext.getModulusOffset obj off1 = 0)) = false :=
        Bool.eq_false_iff.mpr hff
      refine ⟨_, _, hfirst, ?_, ?_, ?_, fun h => absurd h hff, ?_, ?_⟩
      · simp only [getGepObjVar, hfs, Bool.false_eq_true, if_false, ← hsame, hffb,
          Map.find_assign_self]
      · simp only [getGepObjVar, hfs, Bool.false_eq_true, if_false, hffb,
          Map.find_assign_self]
      · rintro ⟨known, hk⟩
        exact absurd hk (by simp)
      · intro _
        simp only [Map.find_assign_self, Option.getD_some]
        exact (mem_set _ _ _).mpr (Or.inl rfl)
      · intro base off id' hid
        simp only at hid ⊢
        by_cases hkey : (base, off) = (obj.id, ext.getModulusOffset obj off1)
        · rw [hkey, Map.find_assign_self] at hid
          simp only [Option.some.injEq] at hid
          have hb : base = obj.id := (Prod.mk.inj hkey).1
          rw [hb, Map.find_assign_self, ← hid]
          exact (mem_set _ _ _).mpr (Or.inl rfl)
        · rw [Map.find_assign_ne _ _ _ _ hkey] at hid
          have hold := hinv base off id' hid
          by_cases hb : base = obj.id
          · rw [hb, Map.find_assign_self]
            simp only [Option.getD_some]
            rw [hb] at hold
            rw [Map.subscript_fst]
            exact (mem_set _ _ _).mpr (Or.inr hold)
          · rw [Map.find_assign_ne _ _ _ _ hb, Map.find_subscript_ne _ _ _ _ hb]
            exact hold

/-- Witness for C25: the offsets 5 and 1 of an object with field limit 4, on the empty
graph. -/
theorem getGepObjVar_memoised_witness :
    ∃ id pag1,
      getGepObjVar Externals.cyclic empty ⟨10, false, 4⟩ 5 = .ok (id, pag1) ∧
      getGepObjVar Externals.cyclic pag1 ⟨10, false, 4⟩ 1 = .ok (id, pag1) ∧
      id ∈ (Map.find pag1.memToFieldsMap 10).getD [] :=
  match getGepObjVar_memoised Externals.cyclic empty ⟨10, false, 4⟩ 5 1 rfl (by decide)
      (fun _ _ _ h => by simp [empty, Map.find] at h) with
  | ⟨id, pag1, h1, h2, _, _, _, h6, _⟩ => ⟨id, pag1, h1, h2, h6 (by decide)⟩

end SVFIR

end SVF
